import Mathlib

/-!
Verification of the CMS localization pipeline (the `CMSLocalization` class):
string extraction from nested CMS entries, content sanitization, deterministic
FTL identifier generation, FTL serialization/deserialization, merging of
localized data, and pull-request reconciliation.

Strings are modelled as Lean `String` / `List Char` (sequences of Unicode
scalar values); the JavaScript string methods used by the source (`split`,
`join`, `slice`, `trim`, `replace`, `startsWith`, `includes`, `match`) are
modelled by explicit executable definitions below with the ECMAScript
semantics of each call site.
-/

namespace CMSLocalization

/-- JavaScript `s.split(sep)` for a single-character separator `sep`:
the empty string yields `[""]`, adjacent separators yield empty segments. -/
def splitOnChar (sep : Char) : List Char → List (List Char)
  | [] => [[]]
  | c :: cs =>
    match splitOnChar sep cs with
    | [] => [[]]
    | g :: gs => if c = sep then [] :: g :: gs else (c :: g) :: gs

/-- JavaScript `ftlId.split('-')`, producing `String` segments. -/
def jsSplitDash (s : String) : List String :=
  (splitOnChar '-' s.data).map String.mk

/-- JavaScript `fieldPath.split('.')`, producing `String` segments. -/
def jsSplitDot (s : String) : List String :=
  (splitOnChar '.' s.data).map String.mk

/-- `parseFtlIdToFieldPath` from the source: split the FTL id on `-`; with
at least 4 segments, drop the first (l10nId) and last (hash) segments and
rejoin the middle with `.` (JavaScript `parts.slice(1, -1).join('.')`);
otherwise return `null`. -/
def parseFtlIdToFieldPath (ftlId : String) : Option String :=
  let parts := jsSplitDash ftlId
  if parts.length ≥ 4 then
    some (String.intercalate "." ((parts.drop 1).dropLast))
  else
    none

/-- The ECMAScript whitespace set: the characters matched by the regex
class `\s` and stripped by `String.prototype.trim` (WhiteSpace and
LineTerminator code points). -/
def jsWhitespace (c : Char) : Bool :=
  c = '\t' ∨ c = '\n' ∨ c.toNat = 0xB ∨ c.toNat = 0xC ∨ c = '\r' ∨ c = ' ' ∨
  c.toNat = 0xA0 ∨ c.toNat = 0x1680 ∨
  (0x2000 ≤ c.toNat ∧ c.toNat ≤ 0x200A) ∨
  c.toNat = 0x2028 ∨ c.toNat = 0x2029 ∨ c.toNat = 0x202F ∨
  c.toNat = 0x205F ∨ c.toNat = 0x3000 ∨ c.toNat = 0xFEFF

/-- JavaScript `s.trim()`: drop leading and trailing ECMAScript whitespace
(`List.rdropWhile p v = (v.reverse.dropWhile p).reverse` drops from the
tail). -/
def jsTrimL (l : List Char) : List Char :=
  List.rdropWhile jsWhitespace (l.dropWhile jsWhitespace)

/-- JavaScript `s.trim()` on `String`. -/
def jsTrim (s : String) : String := String.mk (jsTrimL s.data)

/-- A character of the regex class `[a-zA-Z0-9_-]` (the FTL identifier part
of the data-line pattern in `convertFtlToStrapiFormat`). -/
def isIdChar (c : Char) : Bool :=
  c.isAlpha || c.isDigit || c = '_' || c = '-'

/-- The data-line pattern of `convertFtlToStrapiFormat`:
`trimmedLine.match(/^([a-zA-Z0-9_-]+)\s*=\s*"([^"]*)"$/)`, returning the two
capture groups on success.  The regex is deterministic — `+` and `*` are
greedy and no backtracking can succeed after a greedy run fails, because
`=` is not an identifier character, `=` and `"` are not `\s`, and `[^"]*`
cannot cross the closing quote — so it is modelled by maximal-run scans. -/
def lineMatch (l : List Char) : Option (List Char × List Char) :=
  let idPart := l.takeWhile isIdChar
  if idPart.isEmpty then none else
  match (l.drop idPart.length).dropWhile jsWhitespace with
  | '=' :: r2 =>
    match r2.dropWhile jsWhitespace with
    | '"' :: r3 =>
      let v := r3.takeWhile (fun c => c ≠ '"')
      match r3.drop v.length with
      | ['"'] => some (idPart, v)
      | _ => none
    | _ => none
  | _ => none

/-- JavaScript `s.replace(pat, out)` with a global regex `pat` matching the
two-character literal sequence `a b`, replaced by the single character
`out`; the scan is left-to-right and non-overlapping.  This models each of
the three unescaping steps `.replace(/\\"/g, '"')`, `.replace(/\\n/g, '\n')`
and `.replace(/\\r/g, '\r')`. -/
def replace2 (a b out : Char) : List Char → List Char
  | x :: y :: rest =>
    if x = a ∧ y = b then out :: replace2 a b out rest
    else x :: replace2 a b out (y :: rest)
  | l => l

/-! ### Unicode NFD and the sanitizer

`sanitizeContent` calls `content.normalize('NFD')` and then strips several
character classes with global regex replaces.  `normalize('NFD')` is the
Unicode canonical decomposition followed by the Canonical Ordering
Algorithm (a stable sort of each maximal run of characters with non-zero
canonical combining class, by combining class).  The combining-class and
decomposition tables below carry the UnicodeData.txt values for the blocks
exercised in this development (Combining Diacritical Marks U+0300–U+036F,
Hebrew accents and points U+0591–U+05C7, a sample of Latin-1 letters);
all other characters appearing in this development (ASCII, format and
control characters) have combining class 0 and no decomposition, which the
fallback branches return. -/

/-- Unicode canonical combining class (UnicodeData.txt field 3). -/
def combiningClass (c : Char) : Nat :=
  let n := c.toNat
  if 0x0300 ≤ n ∧ n ≤ 0x0314 then 230
  else if n = 0x0315 then 232
  else if 0x0316 ≤ n ∧ n ≤ 0x0319 then 220
  else if n = 0x031A then 232
  else if n = 0x031B then 216
  else if 0x031C ≤ n ∧ n ≤ 0x0320 then 220
  else if 0x0321 ≤ n ∧ n ≤ 0x0322 then 202
  else if 0x0323 ≤ n ∧ n ≤ 0x0326 then 220
  else if 0x0327 ≤ n ∧ n ≤ 0x0328 then 202
  else if 0x0329 ≤ n ∧ n ≤ 0x0333 then 220
  else if 0x0334 ≤ n ∧ n ≤ 0x0338 then 1
  else if 0x0339 ≤ n ∧ n ≤ 0x033C then 220
  else if 0x033D ≤ n ∧ n ≤ 0x0344 then 230
  else if n = 0x0345 then 240
  else if n = 0x0346 then 230
  else if 0x0347 ≤ n ∧ n ≤ 0x0349 then 220
  else if 0x034A ≤ n ∧ n ≤ 0x034C then 230
  else if 0x034D ≤ n ∧ n ≤ 0x034E then 220
  else if 0x0350 ≤ n ∧ n ≤ 0x0352 then 230
  else if 0x0353 ≤ n ∧ n ≤ 0x0356 then 220
  else if n = 0x0357 then 230
  else if n = 0x0358 then 232
  else if 0x0359 ≤ n ∧ n ≤ 0x035A then 220
  else if n = 0x035B then 230
  else if n = 0x035C then 233
  else if 0x035D ≤ n ∧ n ≤ 0x035E then 234
  else if n = 0x035F then 233
  else if 0x0360 ≤ n ∧ n ≤ 0x0361 then 234
  else if n = 0x0362 then 233
  else if 0x0363 ≤ n ∧ n ≤ 0x036F then 230
  else if n = 0x0591 then 220
  else if 0x0592 ≤ n ∧ n ≤ 0x0595 then 230
  else if n = 0x0596 then 220
  else if 0x0597 ≤ n ∧ n ≤ 0x0599 then 230
  else if n = 0x059A then 222
  else if n = 0x059B then 220
  else if 0x059C ≤ n ∧ n ≤ 0x05A1 then 230
  else if 0x05A2 ≤ n ∧ n ≤ 0x05A7 then 220
  else if 0x05A8 ≤ n ∧ n ≤ 0x05A9 then 230
  else if n = 0x05AA then 220
  else if 0x05AB ≤ n ∧ n ≤ 0x05AC then 230
  else if n = 0x05AD then 222
  else if n = 0x05AE then 228
  else if n = 0x05AF then 230
  else if n = 0x05B0 then 10
  else if n = 0x05B1 then 11
  else if n = 0x05B2 then 12
  else if n = 0x05B3 then 13
  else if n = 0x05B4 then 14
  else if n = 0x05B5 then 15
  else if n = 0x05B6 then 16
  else if n = 0x05B7 then 17
  else if n = 0x05B8 then 18
  else if 0x05B9 ≤ n ∧ n ≤ 0x05BA then 19
  else if n = 0x05BB then 20
  else if n = 0x05BC then 21
  else if n = 0x05BD then 22
  else if n = 0x05BF then 23
  else if n = 0x05C1 then 24
  else if n = 0x05C2 then 25
  else if n = 0x05C4 then 230
  else if n = 0x05C5 then 220
  else if n = 0x05C7 then 18
  else 0

/-- Unicode canonical decomposition (already fully decomposed), for the
Latin-1 letters exercised here; other characters in this development have
no canonical decomposition. -/
def canonDecomp (c : Char) : Option (List Char) :=
  if c = 'à' then some ['a', Char.ofNat 0x0300]
  else if c = 'á' then some ['a', Char.ofNat 0x0301]
  else if c = 'ç' then some ['c', Char.ofNat 0x0327]
  else if c = 'é' then some ['e', Char.ofNat 0x0301]
  else if c = 'ñ' then some ['n', Char.ofNat 0x0303]
  else if c = 'ü' then some ['u', Char.ofNat 0x0308]
  else none

/-- Full canonical decomposition of one character. -/
def nfdDecompose (c : Char) : List Char := (canonDecomp c).getD [c]

/-- Stable sort of a run of combining marks by combining class (the
Canonical Ordering Algorithm on one run). -/
def sortMarks (l : List Char) : List Char :=
  l.insertionSort (fun a b => combiningClass a ≤ combiningClass b)

/-- Canonical ordering: stable-sort each maximal run of non-zero
combining-class characters (fuel-driven so the definition is structurally
recursive and kernel-evaluable; the fuel is the list length, which bounds
the number of runs). -/
def canonicalOrderFuel : Nat → List Char → List Char
  | _, [] => []
  | 0, l => l
  | fuel + 1, c :: cs =>
    if combiningClass c = 0 then c :: canonicalOrderFuel fuel cs
    else
      sortMarks (c :: cs.takeWhile (fun d => combiningClass d ≠ 0)) ++
        canonicalOrderFuel fuel (cs.dropWhile (fun d => combiningClass d ≠ 0))

/-- Unicode NFD normalization (`content.normalize('NFD')`): full canonical
decomposition followed by canonical ordering. -/
def nfd (l : List Char) : List Char :=
  let d := l.foldr (fun c acc => nfdDecompose c ++ acc) []
  canonicalOrderFuel d.length d

/-- The class `[̀-ͯ]` (combining diacritical marks). -/
def isCombiningMark0300 (c : Char) : Bool :=
  0x0300 ≤ c.toNat ∧ c.toNat ≤ 0x036F

/-- The class `[\u0000-\u0008\u000B\u000C\u000E-\u001F\u007F-\u009F]`
(C0/C1 controls except tab, newline, carriage return). -/
def isStrippedControl (c : Char) : Bool :=
  c.toNat ≤ 0x8 ∨ c.toNat = 0xB ∨ c.toNat = 0xC ∨
  (0xE ≤ c.toNat ∧ c.toNat ≤ 0x1F) ∨ (0x7F ≤ c.toNat ∧ c.toNat ≤ 0x9F)

/-- The class `[​-‍﻿]` (zero-width characters and BOM). -/
def isZeroWidthOrBOM (c : Char) : Bool :=
  (0x200B ≤ c.toNat ∧ c.toNat ≤ 0x200D) ∨ c.toNat = 0xFEFF

/-- The class `[⁦⁧⁨⁩]` (directional isolates). -/
def isDirectionalIsolate (c : Char) : Bool :=
  c.toNat = 0x2066 ∨ c.toNat = 0x2067 ∨ c.toNat = 0x2068 ∨ c.toNat = 0x2069

/-- `sanitizeContent` from the source: `''` for a falsy input, otherwise
NFD-normalize, strip combining diacritical marks, stripped control
characters, zero-width characters and BOM, directional isolates (four
global regex replaces, in source order), then `trim()`. -/
def sanitizeFilters (l : List Char) : List Char :=
  (((l.filter (fun c => !(isCombiningMark0300 c))).filter
      (fun c => !(isStrippedControl c))).filter
      (fun c => !(isZeroWidthOrBOM c))).filter
      (fun c => !(isDirectionalIsolate c))

def sanitizeContent (content : String) : String :=
  if content = "" then ""
  else String.mk (jsTrimL (sanitizeFilters (nfd content.data)))

/-! ### MD5 (RFC 1321), modelling `crypto.createHash('md5')`

`generateFtlIdWithL10nId` hashes the sanitized value with Node's
`crypto.createHash('md5').update(value).digest('hex')`; `update` encodes the
string as UTF-8.  The definitions below implement UTF-8 encoding and the
MD5 algorithm over byte lists (`Nat` values `< 256`, words as `Nat` with
explicit `% 2^32`). -/

/-- The 64 MD5 round constants `K[i] = floor(abs(sin(i+1)) * 2^32)`. -/
def md5K : List Nat := [
  0xD76AA478, 0xE8C7B756, 0x242070DB, 0xC1BDCEEE,
  0xF57C0FAF, 0x4787C62A, 0xA8304613, 0xFD469501,
  0x698098D8, 0x8B44F7AF, 0xFFFF5BB1, 0x895CD7BE,
  0x6B901122, 0xFD987193, 0xA679438E, 0x49B40821,
  0xF61E2562, 0xC040B340, 0x265E5A51, 0xE9B6C7AA,
  0xD62F105D, 0x02441453, 0xD8A1E681, 0xE7D3FBC8,
  0x21E1CDE6, 0xC33707D6, 0xF4D50D87, 0x455A14ED,
  0xA9E3E905, 0xFCEFA3F8, 0x676F02D9, 0x8D2A4C8A,
  0xFFFA3942, 0x8771F681, 0x6D9D6122, 0xFDE5380C,
  0xA4BEEA44, 0x4BDECFA9, 0xF6BB4B60, 0xBEBFBC70,
  0x289B7EC6, 0xEAA127FA, 0xD4EF3085, 0x04881D05,
  0xD9D4D039, 0xE6DB99E5, 0x1FA27CF8, 0xC4AC5665,
  0xF4292244, 0x432AFF97, 0xAB9423A7, 0xFC93A039,
  0x655B59C3, 0x8F0CCC92, 0xFFEFF47D, 0x85845DD1,
  0x6FA87E4F, 0xFE2CE6E0, 0xA3014314, 0x4E0811A1,
  0xF7537E82, 0xBD3AF235, 0x2AD7D2BB, 0xEB86D391]

/-- The 64 MD5 per-round left-rotation amounts. -/
def md5S : List Nat :=
  [7, 12, 17, 22, 7, 12, 17, 22, 7, 12, 17, 22, 7, 12, 17, 22,
   5, 9, 14, 20, 5, 9, 14, 20, 5, 9, 14, 20, 5, 9, 14, 20,
   4, 11, 16, 23, 4, 11, 16, 23, 4, 11, 16, 23, 4, 11, 16, 23,
   6, 10, 15, 21, 6, 10, 15, 21, 6, 10, 15, 21, 6, 10, 15, 21]

/-- Bitwise complement on 32-bit words represented as `Nat`. -/
def bnot32 (x : Nat) : Nat := 4294967295 ^^^ x

/-- Left rotation of a 32-bit word by `n` bits (for `0 < n < 32`). -/
def rotl32 (x n : Nat) : Nat := ((x <<< n) % 4294967296) ||| (x >>> (32 - n))

/-- The MD5 round function: `F`, `G`, `H` or `I` according to the round. -/
def md5Mix (i b c d : Nat) : Nat :=
  if i < 16 then (b &&& c) ||| (bnot32 b &&& d)
  else if i < 32 then (b &&& d) ||| (c &&& bnot32 d)
  else if i < 48 then b ^^^ c ^^^ d
  else c ^^^ (b ||| bnot32 d)

/-- The message-word index used in MD5 round `i`. -/
def md5Idx (i : Nat) : Nat :=
  if i < 16 then i
  else if i < 32 then (5 * i + 1) % 16
  else if i < 48 then (3 * i + 5) % 16
  else (7 * i) % 16

/-- One MD5 round: rotate the state quadruple. -/
def md5Step (m : List Nat) (st : Nat × Nat × Nat × Nat) (i : Nat) :
    Nat × Nat × Nat × Nat :=
  let (a, b, c, d) := st
  let f := (md5Mix i b c d + a + md5K.getD i 0 + m.getD (md5Idx i) 0) % 4294967296
  (d, (b + rotl32 f (md5S.getD i 0)) % 4294967296, b, c)

/-- Assemble bytes into little-endian 32-bit words. -/
def toWordsLE : List Nat → List Nat
  | b0 :: b1 :: b2 :: b3 :: rest =>
    (b0 + 256 * b1 + 65536 * b2 + 16777216 * b3) :: toWordsLE rest
  | _ => []

/-- Process one 64-byte block: 64 rounds, then add the incoming state. -/
def md5Block (st : Nat × Nat × Nat × Nat) (block : List Nat) :
    Nat × Nat × Nat × Nat :=
  let m := toWordsLE block
  let (a0, b0, c0, d0) := st
  let (a, b, c, d) := (List.range 64).foldl (md5Step m) st
  ((a0 + a) % 4294967296, (b0 + b) % 4294967296,
   (c0 + c) % 4294967296, (d0 + d) % 4294967296)

/-- Split a byte list into 64-byte chunks (fuel-driven so that the
definition is structurally recursive and kernel-evaluable; the fuel is the
list length, which bounds the number of chunks). -/
def md5Chunks : Nat → List Nat → List (List Nat)
  | _, [] => []
  | 0, _ => []
  | fuel + 1, l => l.take 64 :: md5Chunks fuel (l.drop 64)

/-- Split a padded message into its 64-byte blocks. -/
def chunks64 (l : List Nat) : List (List Nat) := md5Chunks l.length l

/-- MD5 padding: append `0x80`, zero-pad to 56 mod 64, then the original
bit length as a 64-bit little-endian quantity. -/
def md5Pad (msg : List Nat) : List Nat :=
  let z := (119 - msg.length % 64) % 64
  let bitLen := (8 * msg.length) % 18446744073709551616
  msg ++ [0x80] ++ List.replicate z 0 ++
    (List.range 8).map (fun i => (bitLen >>> (8 * i)) % 256)

/-- The 4 little-endian bytes of a 32-bit word. -/
def wordLEBytes (w : Nat) : List Nat :=
  [w % 256, w / 256 % 256, w / 65536 % 256, w / 16777216 % 256]

/-- The 16-byte MD5 digest of a byte-list message. -/
def md5Digest (msg : List Nat) : List Nat :=
  let (a, b, c, d) :=
    (chunks64 (md5Pad msg)).foldl md5Block
      (0x67452301, 0xEFCDAB89, 0x98BADCFE, 0x10325476)
  wordLEBytes a ++ wordLEBytes b ++ wordLEBytes c ++ wordLEBytes d

/-- Lowercase hexadecimal digit for a value `< 16`. -/
def hexDigitChar (n : Nat) : Char :=
  if n < 10 then Char.ofNat (48 + n) else Char.ofNat (87 + n)

/-- Lowercase hexadecimal rendering of a byte list (`digest('hex')`). -/
def bytesToHex (bs : List Nat) : List Char :=
  bs.foldr (fun b acc => hexDigitChar (b / 16) :: hexDigitChar (b % 16) :: acc) []

/-- The lowercase-hex MD5 digest of a byte-list message. -/
def md5Hex (msg : List Nat) : String := String.mk (bytesToHex (md5Digest msg))

/-- UTF-8 encoding of one Unicode scalar value (Node's `Buffer`/`update`
encoding of JavaScript strings). -/
def utf8Bytes (c : Char) : List Nat :=
  let n := c.toNat
  if n < 0x80 then [n]
  else if n < 0x800 then [0xC0 + n / 64, 0x80 + n % 64]
  else if n < 0x10000 then [0xE0 + n / 4096, 0x80 + n / 64 % 64, 0x80 + n % 64]
  else [0xF0 + n / 262144, 0x80 + n / 4096 % 64, 0x80 + n / 64 % 64, 0x80 + n % 64]

/-- UTF-8 encoding of a character list. -/
def utf8Encode (s : List Char) : List Nat :=
  s.foldr (fun c acc => utf8Bytes c ++ acc) []

/-- `generateFtlIdWithL10nId` from the source:
`crypto.createHash('md5').update(value).digest('hex').substring(0, 8)` is
the first 8 hex characters of the MD5 of the UTF-8 encoded value; the field
path has every `.` replaced by `-` (`fieldPath.replace(/\./g, '-')`), and
the result is `l10nId + "-" + fieldPathWithDashes + "-" + hash`. -/
def generateFtlIdWithL10nId (l10nId fieldPath value : String) : String :=
  let hash := String.mk ((bytesToHex (md5Digest (utf8Encode value.data))).take 8)
  let fieldPathWithDashes :=
    String.mk (fieldPath.data.map (fun c => if c = '.' then '-' else c))
  l10nId ++ "-" ++ fieldPathWithDashes ++ "-" ++ hash

/-- `replace2` leaves any list untouched whose characters never include the
second pattern character. -/
theorem replace2_eq_self (a b out : Char) (l : List Char) (hb : b ∉ l) :
    replace2 a b out l = l := by
  induction l using replace2.induct a b out with
  | case1 x y rest hxy ih =>
    obtain ⟨h1, h2⟩ := hxy
    subst h2
    exact absurd (by simp) hb
  | case2 x y rest hxy ih =>
    simp only [replace2, if_neg hxy]
    rw [ih (fun h => hb (List.mem_cons_of_mem x h))]
  | case3 l h =>
    match l, h with
    | [], _ => simp [replace2]
    | [x], _ => simp [replace2]
    | x :: y :: rest, h => exact absurd rfl (h x y rest)

/-! ### The CMS entry data model

CMS entries arrive as parsed JSON enriched by Strapi; they are modelled by
the `JValue` tree below.  JavaScript objects are modelled as association
lists in property-insertion order (`Object.entries` order); property
assignment (`objSet`) overwrites in place, preserving the position of an
existing key, and appends new keys, exactly as JavaScript property
assignment does. -/

inductive JValue where
  | jnull : JValue
  | jbool : Bool → JValue
  | jnum : Int → JValue
  | jstr : String → JValue
  | jarr : List JValue → JValue
  | jobj : List (String × JValue) → JValue

/-! Boolean equality on `JValue` trees with its correctness lemmas, giving
decidable equality (the nested inductive cannot derive it), and a size
function used as structural-recursion fuel. -/

mutual
def beqJV : JValue → JValue → Bool
  | .jnull, .jnull => true
  | .jbool a, .jbool b => a == b
  | .jnum a, .jnum b => a == b
  | .jstr a, .jstr b => a == b
  | .jarr a, .jarr b => beqJVList a b
  | .jobj a, .jobj b => beqJVFields a b
  | _, _ => false

def beqJVList : List JValue → List JValue → Bool
  | [], [] => true
  | a :: as, b :: bs => beqJV a b && beqJVList as bs
  | _, _ => false

def beqJVFields : List (String × JValue) → List (String × JValue) → Bool
  | [], [] => true
  | (k1, v1) :: as, (k2, v2) :: bs => k1 == k2 && beqJV v1 v2 && beqJVFields as bs
  | _, _ => false
end

mutual
theorem beqJV_iff : ∀ (a b : JValue), beqJV a b = true ↔ a = b
  | .jnull, .jnull => by simp [beqJV]
  | .jbool a, .jbool b => by simp [beqJV]
  | .jnum a, .jnum b => by simp [beqJV]
  | .jstr a, .jstr b => by simp [beqJV]
  | .jarr a, .jarr b => by simp [beqJV, beqJVList_iff a b]
  | .jobj a, .jobj b => by simp [beqJV, beqJVFields_iff a b]
  | .jnull, .jbool _ => by simp [beqJV]
  | .jnull, .jnum _ => by simp [beqJV]
  | .jnull, .jstr _ => by simp [beqJV]
  | .jnull, .jarr _ => by simp [beqJV]
  | .jnull, .jobj _ => by simp [beqJV]
  | .jbool _, .jnull => by simp [beqJV]
  | .jbool _, .jnum _ => by simp [beqJV]
  | .jbool _, .jstr _ => by simp [beqJV]
  | .jbool _, .jarr _ => by simp [beqJV]
  | .jbool _, .jobj _ => by simp [beqJV]
  | .jnum _, .jnull => by simp [beqJV]
  | .jnum _, .jbool _ => by simp [beqJV]
  | .jnum _, .jstr _ => by simp [beqJV]
  | .jnum _, .jarr _ => by simp [beqJV]
  | .jnum _, .jobj _ => by simp [beqJV]
  | .jstr _, .jnull => by simp [beqJV]
  | .jstr _, .jbool _ => by simp [beqJV]
  | .jstr _, .jnum _ => by simp [beqJV]
  | .jstr _, .jarr _ => by simp [beqJV]
  | .jstr _, .jobj _ => by simp [beqJV]
  | .jarr _, .jnull => by simp [beqJV]
  | .jarr _, .jbool _ => by simp [beqJV]
  | .jarr _, .jnum _ => by simp [beqJV]
  | .jarr _, .jstr _ => by simp [beqJV]
  | .jarr _, .jobj _ => by simp [beqJV]
  | .jobj _, .jnull => by simp [beqJV]
  | .jobj _, .jbool _ => by simp [beqJV]
  | .jobj _, .jnum _ => by simp [beqJV]
  | .jobj _, .jstr _ => by simp [beqJV]
  | .jobj _, .jarr _ => by simp [beqJV]

theorem beqJVList_iff : ∀ (a b : List JValue), beqJVList a b = true ↔ a = b
  | [], [] => by simp [beqJVList]
  | a :: as, b :: bs => by
    simp [beqJVList, beqJV_iff a b, beqJVList_iff as bs]
  | [], _ :: _ => by simp [beqJVList]
  | _ :: _, [] => by simp [beqJVList]

theorem beqJVFields_iff : ∀ (a b : List (String × JValue)), beqJVFields a b = true ↔ a = b
  | [], [] => by simp [beqJVFields]
  | (k1, v1) :: as, (k2, v2) :: bs => by
    simp [beqJVFields, beqJV_iff v1 v2, beqJVFields_iff as bs]
  | [], _ :: _ => by simp [beqJVFields]
  | _ :: _, [] => by simp [beqJVFields]
end

instance : DecidableEq JValue := fun a b =>
  decidable_of_iff (beqJV a b = true) (beqJV_iff a b)

mutual
def jsize : JValue → Nat
  | .jarr l => 1 + jsizeList l
  | .jobj f => 1 + jsizeFields f
  | _ => 1

def jsizeList : List JValue → Nat
  | [] => 0
  | v :: rest => jsize v + jsizeList rest

def jsizeFields : List (String × JValue) → Nat
  | [] => 0
  | (_, v) :: rest => jsize v + jsizeFields rest
end


/-- JavaScript property read `o[k]` (`none` models `undefined`). -/
def objGet {α : Type} (k : String) : List (String × α) → Option α
  | [] => none
  | (k2, v) :: rest => if k2 = k then some v else objGet k rest

/-- JavaScript property assignment `o[k] = v`: overwrite in place or
append. -/
def objSet {α : Type} (k : String) (v : α) : List (String × α) → List (String × α)
  | [] => [(k, v)]
  | (k2, v2) :: rest => if k2 = k then (k, v) :: rest else (k2, v2) :: objSet k v rest

/-- JavaScript `Object.assign(dst, src)`: assign each property of `src`
into `dst`, in `src` order. -/
def objAssign {α : Type} (dst src : List (String × α)) : List (String × α) :=
  src.foldl (fun d kv => objSet kv.1 kv.2 d) dst

/-- ECMAScript truthiness of a JSON value (`!x` is `true` exactly on the
falsy values `null`/`undefined`, `false`, `0`, `''`). -/
def jsTruthy : JValue → Bool
  | .jnull => false
  | .jbool b => b
  | .jnum n => n ≠ 0
  | .jstr s => s ≠ ""
  | _ => true

/-- ECMAScript string coercion as performed by template literals, with a
structural-recursion fuel (arrays join their elements with `,`, rendering
nested `null` as the empty string; plain objects render as
`[object Object]`).  The fuel `jsize` bounds the nesting depth. -/
def jsTemplateStrD : Nat → JValue → String
  | _, .jstr s => s
  | _, .jnull => "null"
  | _, .jbool b => if b then "true" else "false"
  | _, .jnum n => toString n
  | _, .jobj _ => "[object Object]"
  | 0, .jarr _ => ""
  | fuel + 1, .jarr l =>
    String.intercalate ","
      (l.map (fun v => match v with
        | .jnull => ""
        | w => jsTemplateStrD fuel w))

/-- ECMAScript string coercion of a JSON value (template-literal
interpolation). -/
def jsTemplateStr (v : JValue) : String := jsTemplateStrD (jsize v) v

/-- `value as string` — the cast in the extractor, reached only when the
value is a string. -/
def jValueAsString : JValue → String
  | .jstr s => s
  | _ => ""

/-- JavaScript `s.startsWith(p)`. -/
def jsStartsWith (p s : String) : Bool := p.data.isPrefixOf s.data

/-- JavaScript `s.includes(p)`. -/
def jsIncludes (p s : String) : Bool :=
  (List.range (s.data.length + 1)).any (fun i => p.data.isPrefixOf (s.data.drop i))

/-- `isStringValue` from the source: a string that is non-empty after
trimming. -/
def isStringValue : JValue → Bool
  | .jstr s => decide (jsTrimL s.data ≠ [])
  | _ => false

/-- `isUrl` from the source: a string starting with `http://`, `https://`
or `//`. -/
def isUrl : JValue → Bool
  | .jstr s => jsStartsWith "http://" s || jsStartsWith "https://" s || jsStartsWith "//" s
  | _ => false

/-- `isDate` from the source: `/^\d{4}-\d{2}-\d{2}T\d{2}:\d{2}:\d{2}/.test(value)`
— an ISO-8601 date-time prefix. -/
def isDate : JValue → Bool
  | .jstr s =>
    match s.data with
    | y1 :: y2 :: y3 :: y4 :: '-' :: m1 :: m2 :: '-' :: d1 :: d2 :: 'T' ::
        h1 :: h2 :: ':' :: n1 :: n2 :: ':' :: s1 :: s2 :: _ =>
      y1.isDigit && y2.isDigit && y3.isDigit && y4.isDigit &&
      m1.isDigit && m2.isDigit && d1.isDigit && d2.isDigit &&
      h1.isDigit && h2.isDigit && n1.isDigit && n2.isDigit &&
      s1.isDigit && s2.isDigit
    | _ => false
  | _ => false

/-- `isColor` from the source: a string starting with `#`, `rgb(` or
`rgba(`, or containing `linear-gradient`. -/
def isColor : JValue → Bool
  | .jstr s =>
    jsStartsWith "#" s || jsStartsWith "rgb(" s || jsStartsWith "rgba(" s ||
      jsIncludes "linear-gradient" s
  | _ => false

/-- The metadata keys skipped by `shouldIncludeField`. -/
def metadataKeys : List String :=
  ["id", "documentId", "clientId", "createdAt", "updatedAt", "publishedAt",
   "entrypoint", "name", "l10nId"]

/-- `shouldIncludeField` from the source: skip metadata keys, skip
non-string and blank values, skip URLs, dates and colors. -/
def shouldIncludeField (key : String) (value : JValue) : Bool :=
  if metadataKeys.contains key then false
  else if !(isStringValue value) then false
  else !(isUrl value || isDate value || isColor value)

/-- The nested field path: JavaScript
``prefix ? `${prefix}.${key}` : key`` (the empty prefix is falsy). -/
def childPath (pfx k : String) : String :=
  if pfx = "" then k else pfx ++ "." ++ k

/-- `extractStringsFromObject` from the source, with a structural-recursion
fuel bounding the nesting depth: iterate the object entries in order; skip
`null`; recurse into plain nested objects (not arrays), assigning the
recursively built record into the accumulator (`Object.assign`); otherwise
add the value when `shouldIncludeField` accepts it. -/
def extractFieldsD : Nat → List (String × JValue) → String → List (String × String) → List (String × String)
  | 0, _, _, acc => acc
  | fuel + 1, fields, pfx, acc =>
    fields.foldl (fun a kv =>
      match kv.2 with
      | .jnull => a
      | .jobj g => objAssign a (extractFieldsD fuel g (childPath pfx kv.1) [])
      | other =>
        if shouldIncludeField kv.1 other then
          objSet (childPath pfx kv.1) (jValueAsString other) a
        else a) acc

/-- `extractStringsFromObject(obj, prefix)` (the fuel dominates the
nesting depth). -/
def extractStringsFromObject (fields : List (String × JValue)) (pfx : String) :
    List (String × String) :=
  extractFieldsD (1 + jsizeFields fields) fields pfx []

/-! ### strapiToFtl: collect, sort, de-duplicate, emit

The source's `strapiToFtl` is one function; it is modelled below by its
sequential stages (`collectAllEntries`, `sortedEntries`, `uniqueEntries`,
`emitLines`) composed in `strapiToFtl`.  The generation timestamp
(`new Date().toISOString()`) is an external input and is passed as a
parameter. -/

/-- Strict code-point lexicographic order on character lists.
`String.prototype.localeCompare` is locale-dependent platform behavior; it
is modelled throughout by code-point comparison. -/
def lexLtChars : List Char → List Char → Bool
  | [], [] => false
  | [], _ :: _ => true
  | _ :: _, [] => false
  | a :: as, b :: bs => if a < b then true else if a = b then lexLtChars as bs else false

/-- Reflexive code-point lexicographic order on character lists. -/
def lexLeChars : List Char → List Char → Bool
  | [], _ => true
  | _ :: _, [] => false
  | a :: as, b :: bs => if a < b then true else if a = b then lexLeChars as bs else false

/-- One collected resource entry of `strapiToFtl` (`allEntries` element). -/
structure FtlEntry where
  l10nId : String
  ftlId : String
  value : String
  fieldPath : String
  entryName : Option JValue
  entrypoint : Option JValue
deriving DecidableEq

/-- The sort comparator of `strapiToFtl` as a relation: compare `l10nId`
(when different), then `fieldPath` (`localeCompare` modelled as code-point
comparison).  `entryLe x y` holds when the comparator returns `≤ 0` on
`(x, y)`; JavaScript `Array.prototype.sort` is stable (ES2019) and a stable
sort with respect to a total preorder has a unique result, so
`List.insertionSort` (also stable) models it. -/
def entryLe (x y : FtlEntry) : Bool :=
  if x.l10nId = y.l10nId then lexLeChars x.fieldPath.data y.fieldPath.data
  else lexLtChars x.l10nId.data y.l10nId.data

/-- The claim C4 ordering: lexicographic `(l10nId, fieldPath)` ascending. -/
def pairKeyLe (x y : FtlEntry) : Bool :=
  lexLtChars x.l10nId.data y.l10nId.data ||
    (x.l10nId = y.l10nId && lexLeChars x.fieldPath.data y.fieldPath.data)

/-- Whether an entry value lacks a truthy `l10nId`: `!l10nId` is true in
`strapiToFtl` (the entry is also skipped when it is not an object at all —
non-objects have no `l10nId` property). -/
def lacksL10nId : JValue → Bool
  | .jobj fields =>
    match objGet "l10nId" fields with
    | some lv => !(jsTruthy lv)
    | none => true
  | _ => true

/-- The per-entry contribution to `allEntries` in `strapiToFtl`: skip
non-objects and falsy `l10nId`; destructure away `l10nId`, `name`,
`entrypoint` (rest spread); extract the string fields; sanitize each value
and build its FTL id. -/
def entryContrib : JValue → List FtlEntry
  | .jobj fields =>
    match objGet "l10nId" fields with
    | some lv =>
      if jsTruthy lv then
        let entryData := fields.filter
          (fun kv => !(kv.1 = "l10nId" || kv.1 = "name" || kv.1 = "entrypoint"))
        let strings := extractStringsFromObject entryData ""
        let lid := jsTemplateStr lv
        strings.map (fun fv =>
          let sanitizedValue := sanitizeContent fv.2
          { l10nId := lid
            ftlId := generateFtlIdWithL10nId lid fv.1 sanitizedValue
            value := sanitizedValue
            fieldPath := fv.1
            entryName := objGet "name" fields
            entrypoint := objGet "entrypoint" fields })
      else []
    | none => []
  | _ => []

/-- `allEntries`: the concatenated contributions in input order. -/
def collectAllEntries (strapiData : List JValue) : List FtlEntry :=
  strapiData.foldr (fun e acc => entryContrib e ++ acc) []

/-- `allEntries.sort(...)` with the comparator of `strapiToFtl`. -/
def sortedEntries (strapiData : List JValue) : List FtlEntry :=
  List.insertionSort (fun x y => entryLe x y = true) (collectAllEntries strapiData)

/-- The de-duplication loop of `strapiToFtl`: keep the first occurrence of
each FTL id (`seenFtlIds` as a list). -/
def dedupByFtlId : List FtlEntry → List String → List FtlEntry
  | [], _ => []
  | e :: rest, seen =>
    if seen.contains e.ftlId then dedupByFtlId rest seen
    else e :: dedupByFtlId rest (e.ftlId :: seen)

/-- `uniqueEntries` of `strapiToFtl`. -/
def uniqueEntries (strapiData : List JValue) : List FtlEntry :=
  dedupByFtlId (sortedEntries strapiData) []

/-- JavaScript `str.replace(/([A-Z])/g, ' $1')`: a space before each
capital. -/
def spaceCaps (s : String) : String :=
  String.mk (s.data.foldr (fun c acc => if c.isUpper then ' ' :: c :: acc else c :: acc) [])

/-- ASCII upper-casing of one character (`toUpperCase`, restricted to the
ASCII letters that occur in component and field names here). -/
def asciiUpper (c : Char) : Char :=
  if 'a' ≤ c ∧ c ≤ 'z' then Char.ofNat (c.toNat - 32) else c

/-- JavaScript `str.replace(/^./, s => s.toUpperCase())`: upper-case the
first character; `.` does not match line terminators, so a string starting
with one is unchanged. -/
def upperFirst (s : String) : String :=
  match s.data with
  | [] => s
  | c :: rest =>
    if c = '\n' ∨ c = '\r' ∨ c.toNat = 0x2028 ∨ c.toNat = 0x2029 then s
    else String.mk (asciiUpper c :: rest)

/-- `generateFtlIdWithL10nId`-adjacent comment builder
(`generateFieldComment`): the first path segment is the component, the
second the field (`'Unknown'` when missing or empty); camel case is spaced
and capitalized; the value, entry name and entrypoint parameters are
unused by the source body. -/
def generateFieldComment (fieldPath : String) (_value : String)
    (_entryName _entrypoint : Option JValue) : String :=
  let parts := jsSplitDot fieldPath
  let componentName := if parts.getD 0 "" = "" then "Unknown" else parts.getD 0 ""
  let fieldName := if parts.getD 1 "" = "" then "Unknown" else parts.getD 1 ""
  let readableComponentName := jsTrim (upperFirst (spaceCaps componentName))
  let readableFieldName := jsTrim (upperFirst (spaceCaps fieldName))
  readableFieldName ++ " for " ++ readableComponentName

/-- ``${entry.l10nId} - ${entry.entryName || 'CMS Entry'}`` section header
content. -/
def entryNameDisplay (e : FtlEntry) : String :=
  match e.entryName with
  | some v => if jsTruthy v then jsTemplateStr v else "CMS Entry"
  | none => "CMS Entry"

/-- The emission loop of `strapiToFtl`: a section header at each `l10nId`
change (with a blank separator between sections), then a comment line and
the data line `ftlId = value` for each entry. -/
def emitLines : List FtlEntry → String → List String
  | [], _ => []
  | e :: rest, cur =>
    (if e.l10nId ≠ cur then
      (if cur ≠ "" then [""] else []) ++ ["# " ++ e.l10nId ++ " - " ++ entryNameDisplay e]
    else []) ++
    ("# " ++ generateFieldComment e.fieldPath e.value e.entryName e.entrypoint) ::
    (e.ftlId ++ " = " ++ e.value) :: emitLines rest e.l10nId

/-- `strapiToFtl(strapiData)` with the generation timestamp passed in. -/
def strapiToFtl (timestamp : String) (strapiData : List JValue) : String :=
  String.intercalate "\n"
    (("# Generated on " ++ timestamp) :: "# FTL file for CMS localization" :: "" ::
      emitLines (uniqueEntries strapiData) "")

/-! ### convertFtlToStrapiFormat -/

/-- `if (!strapiFormat[componentName]) strapiFormat[componentName] = \x7b\x7d`. -/
def ensureComponent (acc : List (String × JValue)) (cn : String) :
    List (String × JValue) :=
  match objGet cn acc with
  | some cv => if jsTruthy cv then acc else objSet cn (.jobj []) acc
  | none => objSet cn (.jobj []) acc

/-- `strapiFormat[componentName][fieldName] = v`: assign into the nested
object (a truthy non-object target would be a strict-mode `TypeError` in
the source; it leaves the record unchanged here and is never exercised). -/
def setFieldIn (acc : List (String × JValue)) (cn fn : String) (v : JValue) :
    List (String × JValue) :=
  match objGet cn acc with
  | some (.jobj g) => objSet cn (.jobj (objSet fn v g)) acc
  | _ => acc

/-- The three unescaping replaces of `convertFtlToStrapiFormat`, in source
order. -/
def unescapeValue (l : List Char) : List Char :=
  replace2 '\\' 'r' '\r' (replace2 '\\' 'n' '\n' (replace2 '\\' '"' '"' l))

/-- One line of the `convertFtlToStrapiFormat` loop: skip blank and `#`
lines; match the data-line pattern; require at least 3 dash segments and a
matching embedded `l10nId`; recover the field path, require at least two
path segments; unescape and assign. -/
def convertLine (l10nId : String) (acc : List (String × JValue))
    (line : List Char) : List (String × JValue) :=
  let t := jsTrimL line
  if t.isEmpty then acc
  else if t.head? = some '#' then acc
  else
    match lineMatch t with
    | none => acc
    | some (ftlIdChars, valueChars) =>
      let ftlId := String.mk ftlIdChars
      let ftlIdParts := jsSplitDash ftlId
      if ftlIdParts.length ≥ 3 then
        if ftlIdParts.getD 0 "" = l10nId then
          match parseFtlIdToFieldPath ftlId with
          | some fieldPath =>
            let parts := jsSplitDot fieldPath
            if parts.length ≥ 2 then
              setFieldIn (ensureComponent acc (parts.getD 0 ""))
                (parts.getD 0 "") (parts.getD 1 "")
                (.jstr (String.mk (unescapeValue valueChars)))
            else acc
          | none => acc
        else acc
      else acc

/-- `convertFtlToStrapiFormat(l10nId, ftlContent, baseData)`: metadata
seeded from `baseData` (`undefined` modelled as `null`), then the line
loop over `ftlContent.split('\n')`. -/
def convertFtlToStrapiFormat (l10nId : String) (ftlContent : String)
    (baseData : List (String × JValue)) : List (String × JValue) :=
  let init : List (String × JValue) :=
    [("clientId", (objGet "clientId" baseData).getD .jnull),
     ("entrypoint", (objGet "entrypoint" baseData).getD .jnull),
     ("name", (objGet "name" baseData).getD .jnull),
     ("l10nId", (objGet "l10nId" baseData).getD .jnull)]
  (splitOnChar '\n' ftlContent.data).foldl (convertLine l10nId) init

/-! ### mergeCmsWithLocalization -/

/-- JavaScript `Object.entries`: object properties in insertion order;
array indices as decimal keys; string indices as one-character strings;
other primitives have no enumerable properties. -/
def jsEntries : JValue → List (String × JValue)
  | .jobj f => f
  | .jarr l => l.enum.map (fun p => (toString p.1, p.2))
  | .jstr s => s.data.enum.map (fun p => (toString p.1, .jstr (String.mk [p.2])))
  | _ => []

/-- The reserved metadata keys preserved from the base by the merger. -/
def reservedMergeKeys : List String := ["clientId", "entrypoint", "name", "l10nId"]

/-- The inner field loop of `mergeCmsWithLocalization`: overlay only
string-typed fields into the (ensured) component. -/
def mergeComponentFields (acc : List (String × JValue)) (cn : String)
    (fields : List (String × JValue)) : List (String × JValue) :=
  fields.foldl (fun a fv =>
    match fv.2 with
    | .jstr s => setFieldIn a cn fv.1 (.jstr s)
    | _ => a) (ensureComponent acc cn)

/-- One component step of `mergeCmsWithLocalization`: skip reserved
metadata keys; only non-null object-typed components (arrays included) are
merged, field by field. -/
def mergeComponent (acc : List (String × JValue)) (kv : String × JValue) :
    List (String × JValue) :=
  if reservedMergeKeys.contains kv.1 then acc
  else
    match kv.2 with
    | .jobj g => mergeComponentFields acc kv.1 g
    | .jarr l => mergeComponentFields acc kv.1 (jsEntries (.jarr l))
    | _ => acc

/-- The component loop of `mergeCmsWithLocalization` over the localized
entries. -/
def mergeFields (bf lf : List (String × JValue)) : List (String × JValue) :=
  lf.foldl mergeComponent bf

/-- `mergeCmsWithLocalization(baseData, localizedData)`: falsy arguments
short-circuit; otherwise shallow-copy the base (`\x7b...baseData\x7d`, its
enumerable entries) and overlay the localized components. -/
def mergeCmsWithLocalization (baseData localizedData : JValue) : JValue :=
  if jsTruthy baseData = false then localizedData
  else if jsTruthy localizedData = false then baseData
  else .jobj (mergeFields (jsEntries baseData) (jsEntries localizedData))

/-- Drop the non-string fields of an object component (specification-side
helper for stating that the merger ignores them). -/
def stripNonStringFields : JValue → JValue
  | .jobj g => .jobj (g.filter (fun f =>
      match f.2 with
      | .jstr _ => true
      | _ => false))
  | v => v

/-! ### Pull-request reconciliation -/

/-- An open or closed pull request as seen through the list API. -/
structure PullReq where
  number : Nat
  title : String
  state : String
  headRef : String
deriving DecidableEq

/-- `findExistingPR`: list open pull requests (`pulls.list` with
`state: 'open'`, modelled by the filter) and return the first whose title
contains `cms.ftl` or `CMS localization` and whose state is open. -/
def findExistingPR (prs : List PullReq) : Option PullReq :=
  (prs.filter (fun pr => pr.state = "open")).find?
    (fun pr =>
      (jsIncludes "cms.ftl" pr.title || jsIncludes "CMS localization" pr.title) &&
        pr.state == "open")

/-- The repository as the reconciler sees it: open pull requests and the
`cms.ftl` content per branch. -/
structure RepoState where
  prs : List PullReq
  files : List (String × String)
deriving DecidableEq

/-- What one reconciliation run did. -/
inductive SyncAction where
  | updated : Nat → SyncAction
  | created : Nat → SyncAction
deriving DecidableEq

/-- `updateExistingPR`: commit the serialized file to the existing PR's
head branch (create-or-update); no pull request is created or removed. -/
def updateExistingPR (st : RepoState) (pr : PullReq) (content : String) : RepoState :=
  { st with files := objSet pr.headRef content st.files }

/-- `createGitHubPR`: create a fresh branch, commit the file there, open a
pull request from it. -/
def createGitHubPR (st : RepoState) (newNum : Nat) (branch : String)
    (content : String) : RepoState :=
  { prs := st.prs ++
      [PullReq.mk newNum "Add CMS localization file (cms.ftl)" "open" branch],
    files := objSet branch content st.files }

/-- Modelled from the spec: the webhook pipeline's reconciliation step —
the dispatch "find an existing open localization PR and take the update
path, otherwise create branch and PR" lives in the webhook handler, which
is not under `src/`; `findExistingPR`, `updateExistingPR` and
`createGitHubPR` themselves are from the source. -/
def syncLocalizationPR (st : RepoState) (content : String) (newNum : Nat)
    (newBranch : String) : RepoState × SyncAction :=
  match findExistingPR st.prs with
  | some pr => (updateExistingPR st pr content, .updated pr.number)
  | none => (createGitHubPR st newNum newBranch content, .created newNum)

end CMSLocalization

namespace CMSLocalization

/-- A character is never a member of the maximal run of characters
different from it. -/
theorem not_mem_takeWhile_ne (c : Char) (l : List Char) :
    c ∉ l.takeWhile (fun x => decide (x ≠ c)) := by
  intro hm
  have := List.mem_takeWhile_imp hm
  simp at this

/-- Trimming yields a sublist: a prefix of a suffix. -/
theorem jsTrimL_sublist (l : List Char) : List.Sublist (jsTrimL l) l :=
  (List.rdropWhile_prefix _ _).sublist.trans (List.dropWhile_suffix _).sublist

/-- JavaScript `trim` is idempotent. -/
theorem jsTrimL_idempotent (l : List Char) : jsTrimL (jsTrimL l) = jsTrimL l := by
  unfold jsTrimL
  have hdu : List.dropWhile jsWhitespace (List.dropWhile jsWhitespace l) =
      List.dropWhile jsWhitespace l := List.dropWhile_idempotent _ _
  set u := List.dropWhile jsWhitespace l with hu
  have hpre : List.rdropWhile jsWhitespace u <+: u := List.rdropWhile_prefix _ _
  have hds : List.dropWhile jsWhitespace (List.rdropWhile jsWhitespace u) =
      List.rdropWhile jsWhitespace u := by
    rw [List.dropWhile_eq_self_iff]
    intro hl
    have hul : 0 < u.length := lt_of_lt_of_le hl hpre.length_le
    have hu0 := List.dropWhile_eq_self_iff.mp hdu hul
    simp only [List.get_eq_getElem] at hu0 ⊢
    rw [List.IsPrefix.getElem hpre]
    exact hu0
  rw [hds, List.rdropWhile_idempotent]

/-- The character list of a sanitized string: trim after the four filters
over the NFD-normalized input (this also holds for the falsy-input branch,
where both sides are empty). -/
theorem sanitizeContent_data (s : String) :
    (sanitizeContent s).data = jsTrimL (sanitizeFilters (nfd s.data)) := by
  by_cases hs : s = ""
  · subst hs
    rfl
  · simp [sanitizeContent, hs]

/-- Characters surviving the four sanitizer filters satisfy all four
keep-predicates. -/
theorem mem_sanitizeFilters {c : Char} {l : List Char}
    (h : c ∈ sanitizeFilters l) :
    (!(isCombiningMark0300 c)) ∧ (!(isStrippedControl c)) ∧
    (!(isZeroWidthOrBOM c)) ∧ (!(isDirectionalIsolate c)) := by
  have h4 := List.mem_filter.mp h
  have h3 := List.mem_filter.mp h4.1
  have h2 := List.mem_filter.mp h3.1
  have h1 := List.mem_filter.mp h2.1
  exact ⟨h1.2, h2.2, h3.2, h4.2⟩

/-- The sanitizer filters fix any list all of whose characters pass all
four keep-predicates. -/
theorem sanitizeFilters_eq_self {l : List Char}
    (h : ∀ c ∈ l, (!(isCombiningMark0300 c)) ∧ (!(isStrippedControl c)) ∧
      (!(isZeroWidthOrBOM c)) ∧ (!(isDirectionalIsolate c))) :
    sanitizeFilters l = l := by
  unfold sanitizeFilters
  rw [List.filter_eq_self.mpr (fun c hc => (h c hc).1),
      List.filter_eq_self.mpr (fun c hc => (h c hc).2.1),
      List.filter_eq_self.mpr (fun c hc => (h c hc).2.2.1),
      List.filter_eq_self.mpr (fun c hc => (h c hc).2.2.2)]

/-- C3 (amended): the sanitizer is idempotent on every input whose
sanitized form is NFD-normalized.  (On inputs whose sanitized form is
*not* NFD-normalized the claim fails: removing a zero-width character can
juxtapose two combining marks that the second pass's normalization
reorders; see `sanitizeContent_not_idempotent_counterexample`.) -/
theorem sanitizeContent_idempotent_of_normalized (s : String)
    (h : nfd (sanitizeContent s).data = (sanitizeContent s).data) :
    sanitizeContent (sanitizeContent s) = sanitizeContent s := by
  have hdata := sanitizeContent_data s
  have hmem : ∀ c ∈ (sanitizeContent s).data,
      (!(isCombiningMark0300 c)) ∧ (!(isStrippedControl c)) ∧
      (!(isZeroWidthOrBOM c)) ∧ (!(isDirectionalIsolate c)) := by
    intro c hc
    rw [hdata] at hc
    exact mem_sanitizeFilters ((jsTrimL_sublist _).subset hc)
  by_cases hy : sanitizeContent s = ""
  · rw [hy]
    rfl
  · have step : sanitizeContent (sanitizeContent s) =
        String.mk (jsTrimL (sanitizeFilters (nfd (sanitizeContent s).data))) := by
      rw [sanitizeContent]
      rw [if_neg hy]
    rw [step, h, sanitizeFilters_eq_self hmem, hdata, jsTrimL_idempotent, ← hdata]

/-- Witness for C3's amended theorem at `s = "  a  "`: its sanitized form
`"a"` is NFD-normalized and sanitizing again returns it unchanged. -/
theorem sanitizeContent_idempotent_witness :
    nfd (sanitizeContent "  a  ").data = (sanitizeContent "  a  ").data ∧
    sanitizeContent (sanitizeContent "  a  ") = sanitizeContent "  a  " :=
  ⟨by decide, sanitizeContent_idempotent_of_normalized "  a  " (by decide)⟩

/-- Counterexample to C3 as stated: sanitizing
`"a" ++ U+0591 (combining class 220) ++ U+200B (zero width) ++ U+05B0
(combining class 10)` removes the zero-width character, juxtaposing the two
combining marks out of canonical order; the second sanitization pass
NFD-reorders them, so `sanitizeContent` is not idempotent. -/
theorem sanitizeContent_not_idempotent_counterexample :
    sanitizeContent (sanitizeContent
        (String.mk ['a', Char.ofNat 0x0591, Char.ofNat 0x200B, Char.ofNat 0x05B0])) ≠
      sanitizeContent
        (String.mk ['a', Char.ofNat 0x0591, Char.ofNat 0x200B, Char.ofNat 0x05B0]) := by
  decide

/-- Rendering bytes in hex yields two characters per byte. -/
theorem bytesToHex_length (bs : List Nat) :
    (bytesToHex bs).length = 2 * bs.length := by
  induction bs with
  | nil => rfl
  | cons b rest ih =>
    simp only [bytesToHex, List.foldr] at ih ⊢
    simp [ih]
    ring

/-- An MD5 digest always has 16 bytes. -/
theorem md5Digest_length (msg : List Nat) : (md5Digest msg).length = 16 := by
  unfold md5Digest
  obtain ⟨a, b, c, d⟩ :=
    (chunks64 (md5Pad msg)).foldl md5Block
      (0x67452301, 0xEFCDAB89, 0x98BADCFE, 0x10325476)
  simp [wordLEBytes]

/-- C2 (amended): the generated identifier equals
`l10nId + "-" + (fieldPath with every '.' replaced by '-') + "-" +` the
first 8 characters of the lowercase-hex MD5 digest of the UTF-8 encoded
value; that hash suffix always has exactly 8 characters; and two calls with
identical arguments always yield identical identifiers.  (The original
claim's final clause — that changing the value by one character always
changes the hash suffix — is refuted by
`generateFtlId_oneCharChange_collision`.) -/
theorem generateFtlId_spec (l10nId fieldPath value : String) :
    generateFtlIdWithL10nId l10nId fieldPath value =
      l10nId ++ "-" ++
        String.mk (fieldPath.data.map (fun c => if c = '.' then '-' else c)) ++
        "-" ++ String.mk ((md5Hex (utf8Encode value.data)).data.take 8) ∧
    ((md5Hex (utf8Encode value.data)).data.take 8).length = 8 ∧
    (∀ l2 f2 v2 : String, l10nId = l2 → fieldPath = f2 → value = v2 →
      generateFtlIdWithL10nId l10nId fieldPath value =
        generateFtlIdWithL10nId l2 f2 v2) := by
  refine ⟨rfl, ?_, ?_⟩
  · rw [List.length_take, md5Hex]
    show min 8 (bytesToHex (md5Digest (utf8Encode value.data))).length = 8
    rw [bytesToHex_length, md5Digest_length]
    decide
  · intro l2 f2 v2 h1 h2 h3
    rw [h1, h2, h3]

/-- Witness for C2's amended theorem at concrete arguments (the determinism
clause applied with identical arguments). -/
theorem generateFtlId_spec_witness :
    generateFtlIdWithL10nId "app" "headline.text" "Welcome back" =
      generateFtlIdWithL10nId "app" "headline.text" "Welcome back" :=
  (generateFtlId_spec "app" "headline.text" "Welcome back").2.2
    "app" "headline.text" "Welcome back" rfl rfl rfl

set_option maxRecDepth 8192

/-- Counterexample to C2 as stated: the strings `"v⛆z"` and
`"v\u{1DBC7}z"` differ in exactly one character, yet their 8-hex-character
MD5 prefixes coincide (`201cde7a`), so the generated identifiers are equal.
Changing the value by one character does not always change the hash
suffix: the suffix is only 32 bits of the digest, and 32-bit prefix
collisions exist. -/
theorem generateFtlId_oneCharChange_collision :
    String.mk ['v', Char.ofNat 0x26C6, 'z'] ≠
      String.mk ['v', Char.ofNat 0x1DBC7, 'z'] ∧
    (String.mk ['v', Char.ofNat 0x26C6, 'z']).data.length =
      (String.mk ['v', Char.ofNat 0x1DBC7, 'z']).data.length ∧
    (((String.mk ['v', Char.ofNat 0x26C6, 'z']).data.zip
        (String.mk ['v', Char.ofNat 0x1DBC7, 'z']).data).countP
      (fun p => p.1 ≠ p.2)) = 1 ∧
    generateFtlIdWithL10nId "app" "headline.text"
        (String.mk ['v', Char.ofNat 0x26C6, 'z']) =
      generateFtlIdWithL10nId "app" "headline.text"
        (String.mk ['v', Char.ofNat 0x1DBC7, 'z']) := by
  refine ⟨by decide, by decide, by decide, by decide⟩

/-- C9: a line is accepted by the data-line pattern of
`convertFtlToStrapiFormat` only if its captured value contains no double
quote at all (the value group is `[^"]*`); consequently the unescaping step
`.replace(/\\"/g, '"')` is the identity on every accepted value — the
backslash-quote unescape is never exercised by an accepted line. -/
theorem lineMatch_value_no_quote (l idp v : List Char)
    (h : lineMatch l = some (idp, v)) :
    ('"' ∉ v) ∧ replace2 '\\' '"' '"' v = v := by
  simp only [lineMatch] at h
  split at h
  · exact absurd h (by simp)
  · split at h
    case h_2 => exact absurd h (by simp)
    split at h
    case h_2 => exact absurd h (by simp)
    split at h
    case h_2 => exact absurd h (by simp)
    simp only [Option.some.injEq, Prod.mk.injEq] at h
    obtain ⟨h1, h2⟩ := h
    subst h2
    exact ⟨not_mem_takeWhile_ne _ _,
      replace2_eq_self _ _ _ _ (not_mem_takeWhile_ne _ _)⟩

/-- Witness for C9 at a concrete accepted line `abc = "hi"`: the captured
value `"hi"` contains no quote and the backslash-quote replacement fixes it. -/
theorem lineMatch_value_no_quote_witness :
    lineMatch ("abc = \"hi\"".data) = some ("abc".data, "hi".data) ∧
    ('"' ∉ "hi".data ∧ replace2 '\\' '"' '"' ("hi".data) = "hi".data) :=
  ⟨by decide,
    lineMatch_value_no_quote ("abc = \"hi\"".data) ("abc".data) ("hi".data)
      (by decide)⟩

/-- Membership after `objSet`: the new pair or an old one. -/
theorem mem_objSet {α : Type} {pv : String × α} {k : String} {v : α} :
    ∀ {l : List (String × α)}, pv ∈ objSet k v l → pv = (k, v) ∨ pv ∈ l := by
  intro l
  induction l with
  | nil => intro h; simpa [objSet] using h
  | cons kv rest ih =>
    intro h
    obtain ⟨k2, v2⟩ := kv
    by_cases hk : k2 = k
    · simp only [objSet, if_pos hk] at h
      rcases List.mem_cons.mp h with h1 | h1
      · exact Or.inl h1
      · exact Or.inr (List.mem_cons_of_mem _ h1)
    · simp only [objSet, if_neg hk] at h
      rcases List.mem_cons.mp h with h1 | h1
      · exact Or.inr (by simp [h1])
      · rcases ih h1 with h2 | h2
        · exact Or.inl h2
        · exact Or.inr (List.mem_cons_of_mem _ h2)

/-- Membership after `Object.assign`: from the destination or the source. -/
theorem mem_objAssign {α : Type} {pv : String × α} :
    ∀ {src dst : List (String × α)}, pv ∈ objAssign dst src → pv ∈ dst ∨ pv ∈ src := by
  intro src
  induction src with
  | nil => intro dst h; exact Or.inl h
  | cons kv rest ih =>
    intro dst h
    have h2 : pv ∈ objSet kv.1 kv.2 dst ∨ pv ∈ rest := ih h
    rcases h2 with h3 | h3
    · rcases mem_objSet h3 with h4 | h4
      · exact Or.inr (by simp [h4])
      · exact Or.inl h4
    · exact Or.inr (List.mem_cons_of_mem _ h3)

/-- A field accepted by `shouldIncludeField` is a string, non-empty after
trimming, and neither a URL, a date, nor a color. -/
theorem shouldIncludeField_elim {k : String} {v : JValue}
    (h : shouldIncludeField k v = true) :
    ∃ s, v = .jstr s ∧ jsTrimL s.data ≠ [] ∧
      isUrl v = false ∧ isDate v = false ∧ isColor v = false := by
  unfold shouldIncludeField at h
  split at h
  · exact absurd h (by simp)
  · split at h
    case isTrue hsv => exact absurd h (by simp)
    case isFalse hsv =>
      cases v with
      | jstr s =>
        refine ⟨s, rfl, ?_, ?_⟩
        · have : isStringValue (JValue.jstr s) = true := by
            revert hsv
            cases isStringValue (JValue.jstr s) <;> simp
          simpa [isStringValue] using this
        · simp only [Bool.not_eq_eq_eq_not, Bool.not_true, Bool.or_eq_false_iff] at h
          exact ⟨h.1.1, h.1.2, h.2⟩
      | jnull => exact absurd (by simp [isStringValue]) hsv
      | jbool b => exact absurd (by simp [isStringValue]) hsv
      | jnum n => exact absurd (by simp [isStringValue]) hsv
      | jarr l => exact absurd (by simp [isStringValue]) hsv
      | jobj f => exact absurd (by simp [isStringValue]) hsv

/-- A non-string value is never included. -/
theorem shouldIncludeField_false_of_nonstring (k : String) (v : JValue)
    (h : isStringValue v = false) : shouldIncludeField k v = false := by
  simp [shouldIncludeField, h]

/-- Every pair produced by the extractor (beyond the accumulator) carries a
clean value: non-empty after trimming and not a URL, date or color. -/
theorem extractFieldsD_mem (fuel : Nat) :
    ∀ (fields : List (String × JValue)) (pfx : String)
      (acc : List (String × String)) (pv : String × String),
      pv ∈ extractFieldsD fuel fields pfx acc →
      pv ∈ acc ∨ (jsTrimL pv.2.data ≠ [] ∧ isUrl (.jstr pv.2) = false ∧
        isDate (.jstr pv.2) = false ∧ isColor (.jstr pv.2) = false) := by
  induction fuel with
  | zero => intro fields pfx acc pv h; exact Or.inl h
  | succ fuel ihf =>
    intro fields
    induction fields with
    | nil => intro pfx acc pv h; exact Or.inl h
    | cons kv rest ihl =>
      intro pfx acc pv h
      obtain ⟨k, v⟩ := kv
      cases v with
      | jnull => exact ihl pfx acc pv h
      | jobj g =>
        rw [show extractFieldsD (fuel + 1) ((k, JValue.jobj g) :: rest) pfx acc =
            extractFieldsD (fuel + 1) rest pfx
              (objAssign acc (extractFieldsD fuel g (childPath pfx k) [])) from rfl] at h
        rcases ihl _ _ pv h with h1 | h1
        · rcases mem_objAssign h1 with h2 | h2
          · exact Or.inl h2
          · rcases ihf g (childPath pfx k) [] pv h2 with h3 | h3
            · exact absurd h3 (List.not_mem_nil pv)
            · exact Or.inr h3
        · exact Or.inr h1
      | jstr s =>
        rw [show extractFieldsD (fuel + 1) ((k, JValue.jstr s) :: rest) pfx acc =
            extractFieldsD (fuel + 1) rest pfx
              (if shouldIncludeField k (JValue.jstr s) then
                objSet (childPath pfx k) (jValueAsString (JValue.jstr s)) acc
              else acc) from rfl] at h
        rcases ihl _ _ pv h with h1 | h1
        · by_cases hinc : shouldIncludeField k (JValue.jstr s) = true
          · rw [if_pos hinc] at h1
            rcases mem_objSet h1 with h2 | h2
            · obtain ⟨s2, hs2, ht, hu, hd, hc⟩ := shouldIncludeField_elim hinc
              cases hs2
              subst h2
              exact Or.inr ⟨by simpa [jValueAsString] using ht,
                by simpa [jValueAsString] using hu,
                by simpa [jValueAsString] using hd,
                by simpa [jValueAsString] using hc⟩
            · exact Or.inl h2
          · rw [if_neg hinc] at h1
            exact Or.inl h1
        · exact Or.inr h1
      | jbool b =>
        have hfalse : ¬ (shouldIncludeField k (JValue.jbool b) = true) := by
          simp [shouldIncludeField_false_of_nonstring k (JValue.jbool b) rfl]
        rw [show extractFieldsD (fuel + 1) ((k, JValue.jbool b) :: rest) pfx acc =
            extractFieldsD (fuel + 1) rest pfx
              (if shouldIncludeField k (JValue.jbool b) then
                objSet (childPath pfx k) (jValueAsString (JValue.jbool b)) acc
              else acc) from rfl, if_neg hfalse] at h
        exact ihl pfx acc pv h
      | jnum n =>
        have hfalse : ¬ (shouldIncludeField k (JValue.jnum n) = true) := by
          simp [shouldIncludeField_false_of_nonstring k (JValue.jnum n) rfl]
        rw [show extractFieldsD (fuel + 1) ((k, JValue.jnum n) :: rest) pfx acc =
            extractFieldsD (fuel + 1) rest pfx
              (if shouldIncludeField k (JValue.jnum n) then
                objSet (childPath pfx k) (jValueAsString (JValue.jnum n)) acc
              else acc) from rfl, if_neg hfalse] at h
        exact ihl pfx acc pv h
      | jarr l =>
        have hfalse : ¬ (shouldIncludeField k (JValue.jarr l) = true) := by
          simp [shouldIncludeField_false_of_nonstring k (JValue.jarr l) rfl]
        rw [show extractFieldsD (fuel + 1) ((k, JValue.jarr l) :: rest) pfx acc =
            extractFieldsD (fuel + 1) rest pfx
              (if shouldIncludeField k (JValue.jarr l) then
                objSet (childPath pfx k) (jValueAsString (JValue.jarr l)) acc
              else acc) from rfl, if_neg hfalse] at h
        exact ihl pfx acc pv h

/-- C6: the extractor includes a field value only if it is a non-empty
string after trimming and is not recognized as a URL, an ISO-8601
date-time prefix, or a CSS color; any string recognized as URL, date or
color is excluded at every nesting depth. -/
theorem extractStrings_only_clean (fields : List (String × JValue))
    (pfx path v : String)
    (h : (path, v) ∈ extractStringsFromObject fields pfx) :
    jsTrimL v.data ≠ [] ∧ isUrl (.jstr v) = false ∧
    isDate (.jstr v) = false ∧ isColor (.jstr v) = false := by
  have h2 := extractFieldsD_mem _ fields pfx [] (path, v) h
  simpa using h2

/-- Witness for C6 at a concrete nested entry: `comp.text` is extracted,
and the URL, color and date siblings are all excluded. -/
theorem extractStrings_only_clean_witness :
    ("comp.text", "Hello") ∈ extractStringsFromObject
      [("comp", JValue.jobj [("text", .jstr "Hello"), ("link", .jstr "https://x.io"),
        ("tint", .jstr "#fff"), ("when", .jstr "2024-01-01T00:00:00Z")])] "" ∧
    (jsTrimL "Hello".data ≠ [] ∧ isUrl (.jstr "Hello") = false ∧
      isDate (.jstr "Hello") = false ∧ isColor (.jstr "Hello") = false) ∧
    extractStringsFromObject
      [("comp", JValue.jobj [("text", .jstr "Hello"), ("link", .jstr "https://x.io"),
        ("tint", .jstr "#fff"), ("when", .jstr "2024-01-01T00:00:00Z")])] "" =
      [("comp.text", "Hello")] :=
  ⟨by decide,
   extractStrings_only_clean
     [("comp", JValue.jobj [("text", .jstr "Hello"), ("link", .jstr "https://x.io"),
       ("tint", .jstr "#fff"), ("when", .jstr "2024-01-01T00:00:00Z")])]
     "" "comp.text" "Hello" (by decide),
   by decide⟩

/-- An entry with a falsy (or missing) `l10nId`, or that is not an object,
contributes no resource entries. -/
theorem entryContrib_eq_nil (entry : JValue) (h : lacksL10nId entry = true) :
    entryContrib entry = [] := by
  cases entry with
  | jobj fields =>
    simp only [lacksL10nId] at h
    simp only [entryContrib]
    cases hg : objGet "l10nId" fields with
    | none => simp [hg]
    | some lv =>
      rw [hg] at h
      simp only [Bool.not_eq_true'] at h
      simp [hg, h]
  | jnull => rfl
  | jbool b => rfl
  | jnum n => rfl
  | jstr s => rfl
  | jarr l => rfl

/-- Collection distributes over concatenation of the input list. -/
theorem collectAllEntries_append (d1 d2 : List JValue) :
    collectAllEntries (d1 ++ d2) = collectAllEntries d1 ++ collectAllEntries d2 := by
  induction d1 with
  | nil => simp [collectAllEntries]
  | cons e rest ih =>
    show entryContrib e ++ collectAllEntries (rest ++ d2) = _
    rw [ih]
    simp [collectAllEntries, List.append_assoc]

/-- C7: an input entry that lacks a (truthy) `l10nId` or is not an object
yields no resource entries: it contributes no identifiers and no data
lines — the whole serialized output is as if the entry were absent. -/
theorem strapiToFtl_skips_lacking_l10nId (ts : String) (d1 d2 : List JValue)
    (entry : JValue) (h : lacksL10nId entry = true) :
    collectAllEntries (d1 ++ entry :: d2) = collectAllEntries (d1 ++ d2) ∧
    strapiToFtl ts (d1 ++ entry :: d2) = strapiToFtl ts (d1 ++ d2) := by
  have hc : collectAllEntries (d1 ++ entry :: d2) = collectAllEntries (d1 ++ d2) := by
    rw [collectAllEntries_append, collectAllEntries_append]
    have h2 : collectAllEntries (entry :: d2) = collectAllEntries d2 := by
      show entryContrib entry ++ collectAllEntries d2 = _
      rw [entryContrib_eq_nil entry h]
      simp
    rw [h2]
  refine ⟨hc, ?_⟩
  unfold strapiToFtl uniqueEntries sortedEntries
  rw [hc]

/-- Witness for C7 at a concrete entry without `l10nId`, inserted among
entries with one. -/
theorem strapiToFtl_skips_lacking_l10nId_witness :
    lacksL10nId (.jobj [("name", .jstr "X")]) = true ∧
    strapiToFtl "TS"
        ([JValue.jobj [("l10nId", .jstr "a"), ("x", .jobj [("t", .jstr "w")])]] ++
          JValue.jobj [("name", .jstr "X")] ::
          [JValue.jobj [("l10nId", .jstr "b"), ("y", .jobj [("t", .jstr "v")])]]) =
      strapiToFtl "TS"
        ([JValue.jobj [("l10nId", .jstr "a"), ("x", .jobj [("t", .jstr "w")])]] ++
          [JValue.jobj [("l10nId", .jstr "b"), ("y", .jobj [("t", .jstr "v")])]]) :=
  ⟨by decide,
    (strapiToFtl_skips_lacking_l10nId "TS"
      [JValue.jobj [("l10nId", .jstr "a"), ("x", .jobj [("t", .jstr "w")])]]
      [JValue.jobj [("l10nId", .jstr "b"), ("y", .jobj [("t", .jstr "v")])]]
      (.jobj [("name", .jstr "X")]) (by decide)).2⟩

/-- Code-point lexicographic strict order is irreflexive. -/
theorem lexLt_irrefl (a : List Char) : lexLtChars a a = false := by
  induction a with
  | nil => rfl
  | cons c rest ih => simp [lexLtChars, lt_irrefl, ih]

/-- Code-point lexicographic strict order is transitive. -/
theorem lexLt_trans (a : List Char) :
    ∀ b c, lexLtChars a b = true → lexLtChars b c = true → lexLtChars a c = true := by
  induction a with
  | nil =>
    intro b c h1 h2
    cases b with
    | nil => simp [lexLtChars] at h1
    | cons bh bt =>
      cases c with
      | nil => simp [lexLtChars] at h2
      | cons ch ct => simp [lexLtChars]
  | cons ah t ih =>
    intro b c h1 h2
    cases b with
    | nil => simp [lexLtChars] at h1
    | cons bh bt =>
      cases c with
      | nil => simp [lexLtChars] at h2
      | cons ch ct =>
        simp only [lexLtChars] at h1 h2 ⊢
        by_cases hab : ah < bh
        · by_cases hbc : bh < ch
          · rw [if_pos (lt_trans hab hbc)]
          · by_cases hbc2 : bh = ch
            · subst hbc2
              rw [if_pos hab]
            · rw [if_neg hbc, if_neg hbc2] at h2
              exact absurd h2 (by simp)
        · by_cases hab2 : ah = bh
          · subst hab2
            rw [if_neg hab, if_pos rfl] at h1
            by_cases hbc : ah < ch
            · rw [if_pos hbc]
            · by_cases hbc2 : ah = ch
              · subst hbc2
                rw [if_neg hbc, if_pos rfl] at h2 ⊢
                exact ih _ _ h1 h2
              · rw [if_neg hbc, if_neg hbc2] at h2
                exact absurd h2 (by simp)
          · rw [if_neg hab, if_neg hab2] at h1
            exact absurd h1 (by simp)

/-- The reflexive order is the strict order or equality. -/
theorem lexLe_iff (a : List Char) :
    ∀ b, lexLeChars a b = true ↔ (lexLtChars a b = true ∨ a = b) := by
  induction a with
  | nil => intro b; cases b <;> simp [lexLeChars, lexLtChars]
  | cons ah t ih =>
    intro b
    cases b with
    | nil => simp [lexLeChars, lexLtChars]
    | cons bh bt =>
      simp only [lexLeChars, lexLtChars]
      by_cases hab : ah < bh
      · simp [hab]
      · by_cases hab2 : ah = bh
        · subst hab2
          simp [hab, ih bt]
        · simp [hab, hab2]

/-- Code-point lexicographic trichotomy. -/
theorem lexLt_total (a : List Char) :
    ∀ b, lexLtChars a b = true ∨ a = b ∨ lexLtChars b a = true := by
  induction a with
  | nil => intro b; cases b <;> simp [lexLtChars]
  | cons ah t ih =>
    intro b
    cases b with
    | nil => simp [lexLtChars]
    | cons bh bt =>
      rcases lt_trichotomy ah bh with h | h | h
      · left
        simp [lexLtChars, h]
      · subst h
        rcases ih bt with h2 | h2 | h2
        · left
          simp [lexLtChars, lt_irrefl, h2]
        · right; left
          rw [h2]
        · right; right
          simp [lexLtChars, lt_irrefl, h2]
      · right; right
        simp [lexLtChars, h]

/-- The reflexive order is transitive. -/
theorem lexLe_trans (a b c : List Char) (h1 : lexLeChars a b = true)
    (h2 : lexLeChars b c = true) : lexLeChars a c = true := by
  rcases (lexLe_iff a b).mp h1 with h | h
  · rcases (lexLe_iff b c).mp h2 with g | g
    · exact (lexLe_iff a c).mpr (Or.inl (lexLt_trans _ _ _ h g))
    · subst g
      exact (lexLe_iff _ _).mpr (Or.inl h)
  · subst h
    exact h2

/-- Equal character data gives equal strings. -/
theorem str_ext {s t : String} (h : s.data = t.data) : s = t := by
  cases s
  cases t
  exact congrArg String.mk h

/-- The `strapiToFtl` comparator relation is transitive. -/
theorem entryLe_trans (x y z : FtlEntry) (h1 : entryLe x y = true)
    (h2 : entryLe y z = true) : entryLe x z = true := by
  unfold entryLe at h1 h2 ⊢
  by_cases hxy : x.l10nId = y.l10nId
  · by_cases hyz : y.l10nId = z.l10nId
    · rw [if_pos hxy] at h1
      rw [if_pos hyz] at h2
      rw [if_pos (hxy.trans hyz)]
      have hfp : x.fieldPath.data = x.fieldPath.data := rfl
      rw [show y.fieldPath.data = y.fieldPath.data from rfl] at h1
      exact lexLe_trans _ _ _ h1 h2
    · rw [if_pos hxy] at h1
      rw [if_neg hyz] at h2
      rw [if_neg (by rw [hxy]; exact hyz)]
      rw [show x.l10nId.data = y.l10nId.data from by rw [hxy]]
      exact h2
  · by_cases hyz : y.l10nId = z.l10nId
    · rw [if_neg hxy] at h1
      rw [if_pos hyz] at h2
      rw [if_neg (by rw [← hyz]; exact hxy)]
      rw [show z.l10nId.data = y.l10nId.data from by rw [hyz]]
      exact h1
    · rw [if_neg hxy] at h1
      rw [if_neg hyz] at h2
      have hlt := lexLt_trans _ _ _ h1 h2
      by_cases hxz : x.l10nId = z.l10nId
      · exfalso
        rw [show x.l10nId.data = z.l10nId.data from by rw [hxz]] at hlt
        rw [lexLt_irrefl] at hlt
        exact absurd hlt (by simp)
      · rw [if_neg hxz]
        exact hlt

/-- The `strapiToFtl` comparator relation is total. -/
theorem entryLe_total (x y : FtlEntry) : entryLe x y = true ∨ entryLe y x = true := by
  unfold entryLe
  by_cases hxy : x.l10nId = y.l10nId
  · rw [if_pos hxy, if_pos hxy.symm]
    rcases lexLt_total x.fieldPath.data y.fieldPath.data with h | h | h
    · exact Or.inl ((lexLe_iff _ _).mpr (Or.inl h))
    · exact Or.inl ((lexLe_iff _ _).mpr (Or.inr h))
    · exact Or.inr ((lexLe_iff _ _).mpr (Or.inl h))
  · rw [if_neg hxy, if_neg (fun hh => hxy hh.symm)]
    rcases lexLt_total x.l10nId.data y.l10nId.data with h | h | h
    · exact Or.inl h
    · exact absurd (str_ext h) hxy
    · exact Or.inr h

instance : IsTrans FtlEntry (fun x y => entryLe x y = true) := ⟨entryLe_trans⟩

instance : IsTotal FtlEntry (fun x y => entryLe x y = true) := ⟨entryLe_total⟩

/-- De-duplication removes elements only. -/
theorem dedupByFtlId_sublist :
    ∀ (l : List FtlEntry) (seen : List String),
      List.Sublist (dedupByFtlId l seen) l := by
  intro l
  induction l with
  | nil => intro seen; simp [dedupByFtlId]
  | cons e rest ih =>
    intro seen
    unfold dedupByFtlId
    by_cases hc : seen.contains e.ftlId
    · rw [if_pos hc]
      exact (ih seen).trans (List.sublist_cons_self e rest)
    · rw [if_neg hc]
      exact List.Sublist.cons₂ e (ih _)

/-- A kept entry was unseen and is the first occurrence of its FTL id. -/
theorem dedup_mem_not_seen :
    ∀ (l : List FtlEntry) (seen : List String) (e : FtlEntry),
      e ∈ dedupByFtlId l seen →
      seen.contains e.ftlId = false ∧
      List.find? (fun x => x.ftlId == e.ftlId) l = some e := by
  intro l
  induction l with
  | nil => intro seen e h; simp [dedupByFtlId] at h
  | cons x rest ih =>
    intro seen e h
    unfold dedupByFtlId at h
    by_cases hc : seen.contains x.ftlId
    · rw [if_pos hc] at h
      obtain ⟨h1, h2⟩ := ih seen e h
      have hne : (x.ftlId == e.ftlId) = false := by
        rw [Bool.eq_false_iff]
        intro hq
        have hq2 : x.ftlId = e.ftlId := by simpa using hq
        rw [hq2] at hc
        rw [h1] at hc
        exact absurd hc (by simp)
      have hstep : List.find? (fun y => y.ftlId == e.ftlId) (x :: rest) =
          List.find? (fun y => y.ftlId == e.ftlId) rest := by
        simp [List.find?, hne]
      exact ⟨h1, hstep.trans h2⟩
    · rw [if_neg hc] at h
      rcases List.mem_cons.mp h with h1 | h1
      · subst h1
        refine ⟨by simpa using hc, ?_⟩
        simp [List.find?]
      · obtain ⟨h2, h3⟩ := ih _ e h1
        simp only [List.contains_cons, Bool.or_eq_false_iff] at h2
        refine ⟨h2.2, ?_⟩
        have hne : (x.ftlId == e.ftlId) = false := by
          rw [Bool.eq_false_iff]
          intro hq
          have hq2 : x.ftlId = e.ftlId := by simpa using hq
          have := h2.1
          rw [hq2] at this
          simp at this
        have hstep : List.find? (fun y => y.ftlId == e.ftlId) (x :: rest) =
            List.find? (fun y => y.ftlId == e.ftlId) rest := by
          simp [List.find?, hne]
        exact hstep.trans h3

/-- The kept entries have pairwise distinct FTL ids. -/
theorem dedup_pairwise_ne :
    ∀ (l : List FtlEntry) (seen : List String),
      List.Pairwise (fun a b : FtlEntry => a.ftlId ≠ b.ftlId) (dedupByFtlId l seen) := by
  intro l
  induction l with
  | nil => intro seen; simp [dedupByFtlId]
  | cons x rest ih =>
    intro seen
    unfold dedupByFtlId
    by_cases hc : seen.contains x.ftlId
    · rw [if_pos hc]
      exact ih seen
    · rw [if_neg hc]
      refine List.Pairwise.cons ?_ (ih _)
      intro b hb hxb
      have h2 := (dedup_mem_not_seen _ _ _ hb).1
      rw [← hxb] at h2
      simp at h2

/-- Every incoming FTL id is represented among the kept entries. -/
theorem dedup_complete :
    ∀ (l : List FtlEntry) (seen : List String) (e : FtlEntry),
      e ∈ l →
      seen.contains e.ftlId = true ∨ ∃ u ∈ dedupByFtlId l seen, u.ftlId = e.ftlId := by
  intro l
  induction l with
  | nil => intro seen e h; cases h
  | cons x rest ih =>
    intro seen e h
    unfold dedupByFtlId
    by_cases hc : seen.contains x.ftlId
    · rw [if_pos hc]
      rcases List.mem_cons.mp h with h1 | h1
      · subst h1
        exact Or.inl hc
      · exact ih seen e h1
    · rw [if_neg hc]
      rcases List.mem_cons.mp h with h1 | h1
      · subst h1
        exact Or.inr ⟨e, by simp, rfl⟩
      · rcases ih (x.ftlId :: seen) e h1 with h2 | h2
        · by_cases hq : e.ftlId = x.ftlId
          · exact Or.inr ⟨x, by simp, hq.symm⟩
          · simp only [List.contains_cons, Bool.or_eq_true] at h2
            rcases h2 with h3 | h3
            · exact absurd (by simpa using h3) hq
            · exact Or.inl h3
        · obtain ⟨u, hu, he⟩ := h2
          exact Or.inr ⟨u, List.mem_cons_of_mem _ hu, he⟩

/-- The comparator order implies the `(l10nId, fieldPath)` pair order. -/
theorem entryLe_imp_pairKeyLe (x y : FtlEntry) (h : entryLe x y = true) :
    pairKeyLe x y = true := by
  unfold entryLe at h
  unfold pairKeyLe
  by_cases hxy : x.l10nId = y.l10nId
  · rw [if_pos hxy] at h
    simp [hxy, h]
  · rw [if_neg hxy] at h
    simp [h]

/-- C4: the data entries emitted by `strapiToFtl` are ordered by
`(l10nId, fieldPath)` ascending, entries with equal generated identifiers
collapse to one — pairwise distinct ids, each kept entry being the first
occurrence of its id in the sorted list — and every sorted entry's id is
represented. -/
theorem strapiToFtl_sorted_dedup (d : List JValue) :
    List.Pairwise (fun x y => pairKeyLe x y = true) (uniqueEntries d) ∧
    List.Pairwise (fun x y : FtlEntry => x.ftlId ≠ y.ftlId) (uniqueEntries d) ∧
    (∀ e ∈ uniqueEntries d,
      List.find? (fun x => x.ftlId == e.ftlId) (sortedEntries d) = some e) ∧
    (∀ e ∈ sortedEntries d, ∃ u ∈ uniqueEntries d, u.ftlId = e.ftlId) := by
  refine ⟨?_, dedup_pairwise_ne _ _, ?_, ?_⟩
  · have hs : List.Sorted (fun x y => entryLe x y = true) (sortedEntries d) :=
      List.sorted_insertionSort _ _
    have hp : List.Pairwise (fun x y => pairKeyLe x y = true) (sortedEntries d) :=
      List.Pairwise.imp (fun h => entryLe_imp_pairKeyLe _ _ h) hs
    exact hp.sublist (dedupByFtlId_sublist _ _)
  · intro e he
    exact (dedup_mem_not_seen _ _ _ he).2
  · intro e he
    rcases dedup_complete (sortedEntries d) [] e he with h | h
    · simp at h
    · exact h

/-- Witness for C4 at concrete data with two `l10nId` groups and one
duplicated identifier: the kept entry is the first occurrence of its FTL id
in the sorted list. -/
theorem strapiToFtl_sorted_dedup_witness :
    FtlEntry.mk "a" "a-x-t-f1290186" "w" "x.t" none none ∈ uniqueEntries
      [JValue.jobj [("l10nId", .jstr "b"), ("y", .jobj [("t", .jstr "v")])],
       JValue.jobj [("l10nId", .jstr "a"), ("x", .jobj [("t", .jstr "w")])],
       JValue.jobj [("l10nId", .jstr "a"), ("x", .jobj [("t", .jstr "w")])]] ∧
    List.find? (fun x => x.ftlId == (FtlEntry.mk "a" "a-x-t-f1290186" "w" "x.t" none none).ftlId)
      (sortedEntries
        [JValue.jobj [("l10nId", .jstr "b"), ("y", .jobj [("t", .jstr "v")])],
         JValue.jobj [("l10nId", .jstr "a"), ("x", .jobj [("t", .jstr "w")])],
         JValue.jobj [("l10nId", .jstr "a"), ("x", .jobj [("t", .jstr "w")])]]) =
      some (FtlEntry.mk "a" "a-x-t-f1290186" "w" "x.t" none none) :=
  ⟨by decide,
    (strapiToFtl_sorted_dedup
      [JValue.jobj [("l10nId", .jstr "b"), ("y", .jobj [("t", .jstr "v")])],
       JValue.jobj [("l10nId", .jstr "a"), ("x", .jobj [("t", .jstr "w")])],
       JValue.jobj [("l10nId", .jstr "a"), ("x", .jobj [("t", .jstr "w")])]]).2.2.1
      (FtlEntry.mk "a" "a-x-t-f1290186" "w" "x.t" none none) (by decide)⟩

/-- C1 (code bug): the serializer/deserializer pair does not round-trip.
`strapiToFtl` extracts `comp.field = "hello"` (sanitized value `"hello"`)
and emits the data line `brand-comp-field-5d41402a = hello` *without*
quotes, but `convertFtlToStrapiFormat` accepts only lines of the shape
`id = "value"`, so every serialized data line is dropped: the
reconstruction contains only the metadata seeded from `baseData` and no
`comp` component at all. -/
theorem roundTrip_reconstructs_nothing :
    (collectAllEntries
        [JValue.jobj [("l10nId", .jstr "brand"),
          ("comp", .jobj [("field", .jstr "hello")])]]).map
      (fun e => (e.fieldPath, e.value)) = [("comp.field", "hello")] ∧
    strapiToFtl "2024-01-01T00:00:00.000Z"
        [JValue.jobj [("l10nId", .jstr "brand"),
          ("comp", .jobj [("field", .jstr "hello")])]] =
      "# Generated on 2024-01-01T00:00:00.000Z\n# FTL file for CMS localization\n\n# brand - CMS Entry\n# Field for Comp\nbrand-comp-field-5d41402a = hello" ∧
    convertFtlToStrapiFormat "brand"
        (strapiToFtl "2024-01-01T00:00:00.000Z"
          [JValue.jobj [("l10nId", .jstr "brand"),
            ("comp", .jobj [("field", .jstr "hello")])]])
        [("clientId", .jstr "cid"), ("entrypoint", .jstr "ep"),
         ("name", .jstr "Brand"), ("l10nId", .jstr "brand")] =
      [("clientId", .jstr "cid"), ("entrypoint", .jstr "ep"),
       ("name", .jstr "Brand"), ("l10nId", .jstr "brand")] ∧
    objGet "comp"
      (convertFtlToStrapiFormat "brand"
        (strapiToFtl "2024-01-01T00:00:00.000Z"
          [JValue.jobj [("l10nId", .jstr "brand"),
            ("comp", .jobj [("field", .jstr "hello")])]])
        [("clientId", .jstr "cid"), ("entrypoint", .jstr "ep"),
         ("name", .jstr "Brand"), ("l10nId", .jstr "brand")]) = none := by
  exact ⟨by decide, by decide, by decide, by decide⟩

/-- Reading another key after `objSet`. -/
theorem objGet_objSet_ne {α : Type} (k k2 : String) (v : α)
    (l : List (String × α)) (h : k2 ≠ k) :
    objGet k (objSet k2 v l) = objGet k l := by
  induction l with
  | nil => simp [objSet, objGet, h]
  | cons kv rest ih =>
    obtain ⟨k3, v3⟩ := kv
    by_cases h3 : k3 = k2
    · subst h3
      simp [objSet, objGet, h]
    · simp only [objSet, if_neg h3, objGet]
      by_cases h4 : k3 = k
      · simp [h4]
      · simp [h4, ih]

/-- Reading another key after a nested field assignment. -/
theorem objGet_setFieldIn_ne (acc : List (String × JValue)) (cn fn k : String)
    (v : JValue) (h : cn ≠ k) :
    objGet k (setFieldIn acc cn fn v) = objGet k acc := by
  unfold setFieldIn
  cases hg : objGet cn acc with
  | none => rfl
  | some cv =>
    cases cv with
    | jobj g => exact objGet_objSet_ne _ _ _ _ h
    | jnull => rfl
    | jbool b => rfl
    | jnum n => rfl
    | jstr s => rfl
    | jarr l => rfl

/-- Reading another key after ensuring a component exists. -/
theorem objGet_ensureComponent_ne (acc : List (String × JValue)) (cn k : String)
    (h : cn ≠ k) :
    objGet k (ensureComponent acc cn) = objGet k acc := by
  unfold ensureComponent
  cases hg : objGet cn acc with
  | none => exact objGet_objSet_ne _ _ _ _ h
  | some cv =>
    dsimp only
    by_cases ht : jsTruthy cv = true
    · rw [if_pos ht]
    · rw [if_neg ht]
      exact objGet_objSet_ne _ _ _ _ h

/-- The inner merge loop touches only its component key. -/
theorem objGet_mergeComponentFields_ne (acc : List (String × JValue))
    (cn : String) (fields : List (String × JValue)) (k : String) (h : cn ≠ k) :
    objGet k (mergeComponentFields acc cn fields) = objGet k acc := by
  unfold mergeComponentFields
  have aux : ∀ (fs : List (String × JValue)) (a : List (String × JValue)),
      objGet k (fs.foldl (fun a fv =>
        match fv.2 with
        | .jstr s => setFieldIn a cn fv.1 (.jstr s)
        | _ => a) a) = objGet k a := by
    intro fs
    induction fs with
    | nil => intro a; rfl
    | cons fv rest ih =>
      intro a
      rw [List.foldl_cons, ih]
      obtain ⟨fn, fvv⟩ := fv
      cases fvv with
      | jstr s => exact objGet_setFieldIn_ne _ _ _ _ _ h
      | jnull => rfl
      | jbool b => rfl
      | jnum n => rfl
      | jarr l => rfl
      | jobj g => rfl
  rw [aux]
  exact objGet_ensureComponent_ne _ _ _ h

/-- A merge step never changes a reserved metadata key. -/
theorem objGet_mergeComponent_reserved (bf : List (String × JValue))
    (kv : String × JValue) (k : String)
    (hk : reservedMergeKeys.contains k = true) :
    objGet k (mergeComponent bf kv) = objGet k bf := by
  unfold mergeComponent
  by_cases hr : reservedMergeKeys.contains kv.1 = true
  · rw [if_pos hr]
  · rw [if_neg hr]
    have hne : kv.1 ≠ k := fun he => hr (he ▸ hk)
    cases hv : kv.2 with
    | jobj g => exact objGet_mergeComponentFields_ne _ _ _ _ hne
    | jarr l => exact objGet_mergeComponentFields_ne _ _ _ _ hne
    | jnull => rfl
    | jbool b => rfl
    | jnum n => rfl
    | jstr s => rfl

/-- The merger preserves every reserved metadata key from the base. -/
theorem objGet_mergeFields_reserved (lf : List (String × JValue)) :
    ∀ (bf : List (String × JValue)) (k : String),
      reservedMergeKeys.contains k = true →
      objGet k (mergeFields bf lf) = objGet k bf := by
  induction lf with
  | nil => intro bf k hk; rfl
  | cons kv rest ih =>
    intro bf k hk
    unfold mergeFields at ih ⊢
    rw [List.foldl_cons, ih _ _ hk]
    exact objGet_mergeComponent_reserved _ _ _ hk

/-- The inner merge loop ignores non-string fields. -/
theorem mergeComponentFields_filter (acc : List (String × JValue))
    (cn : String) (fields : List (String × JValue)) :
    mergeComponentFields acc cn fields =
      mergeComponentFields acc cn (fields.filter (fun f =>
        match f.2 with
        | .jstr _ => true
        | _ => false)) := by
  unfold mergeComponentFields
  have aux : ∀ (fs : List (String × JValue)) (a : List (String × JValue)),
      fs.foldl (fun a fv =>
        match fv.2 with
        | .jstr s => setFieldIn a cn fv.1 (.jstr s)
        | _ => a) a =
      (fs.filter (fun f =>
        match f.2 with
        | .jstr _ => true
        | _ => false)).foldl (fun a fv =>
        match fv.2 with
        | .jstr s => setFieldIn a cn fv.1 (.jstr s)
        | _ => a) a := by
    intro fs
    induction fs with
    | nil => intro a; rfl
    | cons fv rest ih =>
      intro a
      obtain ⟨fn, fvv⟩ := fv
      cases fvv with
      | jstr s => simp only [List.foldl_cons, List.filter_cons_of_pos, ih]
      | jnull => simpa [List.filter_cons_of_neg, List.foldl_cons] using ih a
      | jbool b => simpa [List.filter_cons_of_neg, List.foldl_cons] using ih a
      | jnum n => simpa [List.filter_cons_of_neg, List.foldl_cons] using ih a
      | jarr l => simpa [List.filter_cons_of_neg, List.foldl_cons] using ih a
      | jobj g => simpa [List.filter_cons_of_neg, List.foldl_cons] using ih a
  exact aux fields _

/-- The merger's result is unchanged when the non-string fields of object
components are dropped from the localized data. -/
theorem mergeFields_strip (lf : List (String × JValue)) :
    ∀ (bf : List (String × JValue)),
      mergeFields bf lf =
        mergeFields bf (lf.map (fun kv => (kv.1, stripNonStringFields kv.2))) := by
  induction lf with
  | nil => intro bf; rfl
  | cons kv rest ih =>
    intro bf
    unfold mergeFields at ih ⊢
    rw [List.map_cons, List.foldl_cons, List.foldl_cons]
    have hcomp : mergeComponent bf kv =
        mergeComponent bf (kv.1, stripNonStringFields kv.2) := by
      unfold mergeComponent
      by_cases hr : reservedMergeKeys.contains kv.1 = true
      · rw [if_pos hr, if_pos hr]
      · rw [if_neg hr, if_neg hr]
        cases hv : kv.2 with
        | jobj g => exact mergeComponentFields_filter _ _ _
        | jarr l => rfl
        | jnull => rfl
        | jbool b => rfl
        | jnum n => rfl
        | jstr s => rfl
    rw [hcomp]
    exact ih _

/-- C8: `mergeCmsWithLocalization` preserves the reserved metadata keys
`clientId`, `entrypoint`, `name`, `l10nId` from the base, silently ignores
non-string field values from the localized data, and on the spec's example
overlays `headline.text` while dropping the `l10nId` key of the overlay. -/
theorem mergeCms_spec :
    (∀ (bf lf : List (String × JValue)) (k : String),
      reservedMergeKeys.contains k = true →
      objGet k (mergeFields bf lf) = objGet k bf) ∧
    (∀ (bf lf : List (String × JValue)),
      mergeFields bf lf =
        mergeFields bf (lf.map (fun kv => (kv.1, stripNonStringFields kv.2)))) ∧
    mergeCmsWithLocalization
        (.jobj [("headline", .jobj [("text", .jstr "A")])])
        (.jobj [("headline", .jobj [("text", .jstr "B")]), ("l10nId", .jstr "x")]) =
      .jobj [("headline", .jobj [("text", .jstr "B")])] :=
  ⟨fun bf lf k hk => objGet_mergeFields_reserved lf bf k hk,
   fun bf lf => mergeFields_strip lf bf,
   by decide⟩

/-- Witness for C8 at a concrete merge: the reserved key `l10nId` in the
localized overlay cannot override the base. -/
theorem mergeCms_spec_witness :
    reservedMergeKeys.contains "l10nId" = true ∧
    objGet "l10nId" (mergeFields [("l10nId", JValue.jstr "base")]
        [("l10nId", JValue.jstr "x"), ("headline", JValue.jobj [("text", JValue.jstr "B")])]) =
      objGet "l10nId" [("l10nId", JValue.jstr "base")] :=
  ⟨by decide,
    mergeCms_spec.1 [("l10nId", JValue.jstr "base")]
      [("l10nId", JValue.jstr "x"), ("headline", JValue.jobj [("text", JValue.jstr "B")])]
      "l10nId" (by decide)⟩

/-- C10 (spec-modelled dispatch): when a matching open pull request exists,
`findExistingPR` returns it — its title contains `cms.ftl` or
`CMS localization` and it is open — the update path is taken (the file is
committed to that PR's head branch), no pull request is created, and a
second run with unchanged data again takes the update path on the same PR:
the set of pull requests never changes. -/
theorem syncLocalizationPR_idempotent (st : RepoState) (c1 c2 : String)
    (n1 n2 : Nat) (b1 b2 : String) (pr : PullReq)
    (h : findExistingPR st.prs = some pr) :
    (syncLocalizationPR st c1 n1 b1).2 = .updated pr.number ∧
    (syncLocalizationPR st c1 n1 b1).1.prs = st.prs ∧
    (syncLocalizationPR st c1 n1 b1).1.files = objSet pr.headRef c1 st.files ∧
    (syncLocalizationPR (syncLocalizationPR st c1 n1 b1).1 c2 n2 b2).1.prs = st.prs ∧
    (syncLocalizationPR (syncLocalizationPR st c1 n1 b1).1 c2 n2 b2).2 =
      .updated pr.number ∧
    (jsIncludes "cms.ftl" pr.title || jsIncludes "CMS localization" pr.title) = true ∧
    pr.state = "open" := by
  have hm := List.mem_of_find?_eq_some h
  have hp := List.find?_some h
  have hopen : pr.state = "open" := of_decide_eq_true (List.mem_filter.mp hm).2
  have htitle :
      (jsIncludes "cms.ftl" pr.title || jsIncludes "CMS localization" pr.title) = true := by
    revert hp
    cases jsIncludes "cms.ftl" pr.title || jsIncludes "CMS localization" pr.title <;> simp
  have h1 : syncLocalizationPR st c1 n1 b1 =
      (updateExistingPR st pr c1, .updated pr.number) := by
    unfold syncLocalizationPR
    rw [h]
  have hprs : (updateExistingPR st pr c1).prs = st.prs := rfl
  have h2 : findExistingPR (updateExistingPR st pr c1).prs = some pr := by
    rw [hprs, h]
  refine ⟨by rw [h1], by rw [h1]; rfl, by rw [h1]; rfl, ?_, ?_, htitle, hopen⟩
  · rw [h1]
    show (syncLocalizationPR (updateExistingPR st pr c1) c2 n2 b2).1.prs = st.prs
    unfold syncLocalizationPR
    rw [h2]
    rfl
  · rw [h1]
    show (syncLocalizationPR (updateExistingPR st pr c1) c2 n2 b2).2 =
      SyncAction.updated pr.number
    unfold syncLocalizationPR
    rw [h2]

/-- Witness for C10 at a concrete repository state holding one matching
open pull request. -/
theorem syncLocalizationPR_idempotent_witness :
    findExistingPR (RepoState.mk [PullReq.mk 7 "Update cms.ftl strings" "open" "loc"] []).prs =
      some (PullReq.mk 7 "Update cms.ftl strings" "open" "loc") ∧
    (syncLocalizationPR (RepoState.mk [PullReq.mk 7 "Update cms.ftl strings" "open" "loc"] [])
        "content" 99 "new-branch").2 = .updated 7 ∧
    (syncLocalizationPR (RepoState.mk [PullReq.mk 7 "Update cms.ftl strings" "open" "loc"] [])
        "content" 99 "new-branch").1.prs =
      (RepoState.mk [PullReq.mk 7 "Update cms.ftl strings" "open" "loc"] []).prs :=
  ⟨by decide,
    (syncLocalizationPR_idempotent
      (RepoState.mk [PullReq.mk 7 "Update cms.ftl strings" "open" "loc"] [])
      "content" "content" 99 98 "new-branch" "new-branch2"
      (PullReq.mk 7 "Update cms.ftl strings" "open" "loc") (by decide)).1,
    (syncLocalizationPR_idempotent
      (RepoState.mk [PullReq.mk 7 "Update cms.ftl strings" "open" "loc"] [])
      "content" "content" 99 98 "new-branch" "new-branch2"
      (PullReq.mk 7 "Update cms.ftl strings" "open" "loc") (by decide)).2.1⟩

/-- C5: for every identifier string, `parseFtlIdToFieldPath` splits it on
`-`; with at least 4 segments it returns the middle segments (all but the
first and the last) rejoined with `.`, and otherwise it returns `null`. -/
theorem parseFtlIdToFieldPath_spec (ftlId : String) :
    (4 ≤ (jsSplitDash ftlId).length →
      parseFtlIdToFieldPath ftlId =
        some (String.intercalate "." (((jsSplitDash ftlId).drop 1).dropLast))) ∧
    ((jsSplitDash ftlId).length < 4 → parseFtlIdToFieldPath ftlId = none) := by
  constructor
  · intro h
    simp [parseFtlIdToFieldPath, h]
  · intro h
    simp [parseFtlIdToFieldPath, Nat.not_le.mpr h]

/-- Witness for C5 at a concrete identifier: `"app-headline-text-1a2b3c4d"`
has 4 dash-separated segments and parses to the field path `"headline.text"`. -/
theorem parseFtlIdToFieldPath_spec_witness :
    4 ≤ (jsSplitDash "app-headline-text-1a2b3c4d").length ∧
    parseFtlIdToFieldPath "app-headline-text-1a2b3c4d" = some "headline.text" := by
  refine ⟨by decide, ?_⟩
  have h := (parseFtlIdToFieldPath_spec "app-headline-text-1a2b3c4d").1 (by decide)
  rw [h]
  decide

end CMSLocalization
